import Mathlib

/-!
A verification development for the Shor compliance toolchain: a shallow
embedding of the specification validator, the contract/document generators,
the compilation orchestrator, the audit manifest generator and the
jurisdiction template registry, together with theorems settling the
behavioural claims about them.

JavaScript semantics are modelled explicitly where they matter:
optional fields are `Option`, JavaScript truthiness is spelled out
(`0`, `""`, `undefined` and `NaN` are falsy; arrays and objects are truthy),
`undefined`/invalid-date timestamps are `Option.none`, and thrown
exceptions are `Except.error`.
-/

namespace Shor

instance {ε α : Type} [DecidableEq ε] [DecidableEq α] : DecidableEq (Except ε α) := by
  intro a b
  cases a <;> cases b
  case error.error x y => exact decidable_of_iff (x = y) (by simp)
  case ok.ok x y => exact decidable_of_iff (x = y) (by simp)
  all_goals exact .isFalse (by simp)

/-! ## JavaScript value helpers -/

/-- Truthiness of an optional JavaScript string: `undefined` and `""` are falsy. -/
def truthyStr : Option String → Bool
  | none => false
  | some s => s != ""

/-- Truthiness of an optional JavaScript number: `undefined` and `0` are falsy. -/
def truthyNat : Option Nat → Bool
  | none => false
  | some n => n != 0

/-- Truthiness of an optional JavaScript boolean: `undefined` and `false` are falsy. -/
def truthyBool : Option Bool → Bool
  | none => false
  | some b => b

/-- JavaScript `x || d` on an optional string: the default applies when `x`
is `undefined` or `""`. -/
def jsOrStr (o : Option String) (d : String) : String :=
  match o with
  | some s => if s != "" then s else d
  | none => d

/-- JavaScript `>=` on two date values whose time is `none` when the date is
invalid (`NaN`): any comparison against `NaN` is false. -/
def jsGE : Option Int → Option Int → Bool
  | some a, some b => a ≥ b
  | _, _ => false

/-! ## Date model

`new Date(string)` on the ISO `YYYY-MM-DD` date strings this repository uses.
Strings outside that subset decode to `none`, modelling an Invalid Date whose
`getTime()` is `NaN`. Epoch arithmetic uses the standard civil-from-days
conversion so parsed dates carry their real Unix millisecond timestamps. -/

/-- Gregorian leap year test. -/
def isLeapYear (y : Nat) : Bool :=
  (y % 4 == 0 && y % 100 != 0) || (y % 400 == 0)

/-- Number of days in a month (1-based) of a given year. -/
def daysInMonth (y m : Nat) : Nat :=
  if m == 2 then (if isLeapYear y then 29 else 28)
  else if m == 4 || m == 6 || m == 9 || m == 11 then 30
  else 31

/-- Days from the civil date `y-m-d` to 1970-01-01 (Howard Hinnant's
`days_from_civil`), for a 4-digit year and 1-based month/day. -/
def daysFromCivil (y m d : Nat) : Int :=
  let y' : Int := if m ≤ 2 then (y : Int) - 1 else (y : Int)
  let era : Int := y' / 400
  let yoe : Int := y' - era * 400
  let mp : Int := ((m : Int) + 9) % 12
  let doy : Int := (153 * mp + 2) / 5 + (d : Int) - 1
  let doe : Int := yoe * 365 + yoe / 4 - yoe / 100 + doy
  era * 146097 + doe - 719468

/-- Split a character list at every occurrence of `c` (the semantics of
`String.prototype.split` on a one-character separator). -/
def splitOnChar (c : Char) : List Char → List (List Char)
  | [] => [[]]
  | x :: xs =>
    let r := splitOnChar c xs
    if x == c then [] :: r
    else match r with
      | [] => [[x]]
      | g :: gs => (x :: g) :: gs

/-- The numeric value of a decimal digit character, `none` otherwise. -/
def digitVal? (c : Char) : Option Nat :=
  if '0' ≤ c ∧ c ≤ '9' then some (c.toNat - '0'.toNat) else none

/-- Read a nonempty all-digit character list as a natural number. -/
def asNat? (cs : List Char) : Option Nat :=
  go cs (some 0)
where
  go : List Char → Option Nat → Option Nat
    | [], acc => acc
    | c :: cs, acc =>
      match digitVal? c, acc with
      | some d, some a => go cs (some (a * 10 + d))
      | _, _ => none

/-- Parse an ISO `YYYY-MM-DD` string to its Unix-epoch millisecond timestamp;
`none` for anything that is not a calendar date in that format
(the Invalid Date / `NaN` case of `new Date(string)`). -/
def parseISODate (s : String) : Option Int :=
  match splitOnChar '-' s.data with
  | [ys, ms, ds] =>
    if ys.length == 4 && ms.length == 2 && ds.length == 2 then
      match asNat? ys, asNat? ms, asNat? ds with
      | some y, some m, some d =>
        if 1 ≤ m && m ≤ 12 && 1 ≤ d && d ≤ daysInMonth y m then
          some (86400000 * daysFromCivil y m d)
        else none
      | _, _, _ => none
    else none
  | _ => none

/-- `new Date(x).getTime()` for an optional date string: `undefined` or an
unparsable string yield `none` (`NaN`). -/
def jsGetTime (s : Option String) : Option Int :=
  s.bind parseISODate

/-- `Math.floor(t / 1000)` over a possibly-`NaN` millisecond time. -/
def epochSeconds (t : Option Int) : Option Int :=
  t.map (fun ms => Int.fdiv ms 1000)

/-! ## Specification data model (packages/sdk/src/types/compliance.ts) -/

/-- The `token_sale` module. All fields are optional. Fields never read by
the validator, the generators or the audit generator are omitted. -/
structure TokenSaleModule where
  accredited_only : Option Bool := none
  kyc_threshold_usd : Option Nat := none
  aml_required : Option Bool := none
  max_cap_usd : Option Nat := none
  min_investment_usd : Option Nat := none
  start_date : Option String := none
  end_date : Option String := none
  blocklist : Option (List String) := none
  whitelist : Option (List String) := none
  lockup_days : Option Nat := none
deriving Repr, DecidableEq

/-- Specification metadata; only the fields the embedded functions read. -/
structure ComplianceMetadata where
  project_name : Option String := none
  description : Option String := none
  created_date : Option String := none
  jurisdiction : Option String := none
  regulation_framework : Option String := none
deriving Repr, DecidableEq

/-- The `investor_verification` module; only the field the audit generator
reads. -/
structure InvestorVerificationModule where
  bad_actor_check_required : Option Bool := none
deriving Repr, DecidableEq

/-- The open `modules` map: the `token_sale` module (the only one with
generator-level semantics), the modules the audit generator inspects
(`investor_verification` by field, `disclosures`/`ongoing_reporting` by
their key sets only), plus the names of any other module keys present,
which are only ever counted or listed. -/
structure ComplianceModules where
  token_sale : Option TokenSaleModule := none
  investor_verification : Option InvestorVerificationModule := none
  disclosures : Option (List String) := none
  ongoing_reporting : Option (List String) := none
  other_modules : List String := []
deriving Repr, DecidableEq

/-- `Object.keys(modules).length` of the modules map. -/
def ComplianceModules.keyCount (m : ComplianceModules) : Nat :=
  (if m.token_sale.isSome then 1 else 0) +
  (if m.investor_verification.isSome then 1 else 0) +
  (if m.disclosures.isSome then 1 else 0) +
  (if m.ongoing_reporting.isSome then 1 else 0) +
  m.other_modules.length

/-- `Object.keys(modules)` in key order, for `modules_implemented`. -/
def ComplianceModules.keyList (m : ComplianceModules) : List String :=
  (if m.token_sale.isSome then ["token_sale"] else []) ++
  (if m.investor_verification.isSome then ["investor_verification"] else []) ++
  (if m.disclosures.isSome then ["disclosures"] else []) ++
  (if m.ongoing_reporting.isSome then ["ongoing_reporting"] else []) ++
  m.other_modules

/-- A compliance specification. The three top-level fields are optional so
the validator's missing-field checks are expressible. -/
structure ComplianceSpec where
  version : Option String := none
  metadata : Option ComplianceMetadata := none
  modules : Option ComplianceModules := none
deriving Repr, DecidableEq

/-- `spec.modules?.token_sale`. -/
def ComplianceSpec.tokenSale (spec : ComplianceSpec) : Option TokenSaleModule :=
  spec.modules.bind ComplianceModules.token_sale

/-! ## Validation (packages/sdk/src/utils/validation.ts) -/

structure ValidationResult where
  valid : Bool
  errors : List String
deriving Repr, DecidableEq

def minMaxMsg : String := "Minimum investment cannot exceed maximum cap"
def dateOrderMsg : String := "Start date must be before end date"
def overlapPrefix : String := "Countries cannot be in both whitelist and blocklist: "

/-- `Array.prototype.join(sep)`. -/
def jsJoin (sep : String) : List String → String
  | [] => ""
  | [x] => x
  | x :: y :: xs => x ++ sep ++ jsJoin sep (y :: xs)

/-- The overlap error message for a computed overlap list
(`overlap.join(', ')` interpolated after the fixed prefix). -/
def overlapMsg (overlap : List String) : String :=
  overlapPrefix ++ jsJoin ", " overlap

/-- The three basic checks, in push order. `!spec.version` is a truthiness
test (so `""` also counts as missing); `metadata` is an object and so is
truthy whenever present; the modules check is
`!spec.modules || Object.keys(spec.modules).length === 0`. -/
def basicErrors (spec : ComplianceSpec) : List String :=
  (if truthyStr spec.version then [] else ["Missing version field"]) ++
  (if spec.metadata.isSome then [] else ["Missing metadata"]) ++
  (match spec.modules with
   | none => ["No compliance modules defined"]
   | some ms => if ms.keyCount == 0 then ["No compliance modules defined"] else [])

/-- `if (tokenSale.min_investment_usd && tokenSale.max_cap_usd)`: both fields
must be truthy (present and nonzero) for the comparison to run. -/
def minMaxErrors (ts : TokenSaleModule) : List String :=
  if truthyNat ts.min_investment_usd && truthyNat ts.max_cap_usd then
    if ts.min_investment_usd.getD 0 > ts.max_cap_usd.getD 0 then [minMaxMsg] else []
  else []

/-- `if (tokenSale.start_date && tokenSale.end_date)` guards the date parse;
the pushed error requires `new Date(start) >= new Date(end)`, which is false
whenever either date is invalid (`NaN`). -/
def dateErrors (ts : TokenSaleModule) : List String :=
  if truthyStr ts.start_date && truthyStr ts.end_date then
    if jsGE (jsGetTime ts.start_date) (jsGetTime ts.end_date) then [dateOrderMsg] else []
  else []

/-- `tokenSale.blocklist.filter(c => tokenSale.whitelist.includes(c))`:
runs when both lists are present (arrays are truthy even when empty). -/
def overlapErrors (ts : TokenSaleModule) : List String :=
  match ts.blocklist, ts.whitelist with
  | some bl, some wl =>
    let overlap := bl.filter (fun c => wl.contains c)
    if overlap.length > 0 then [overlapMsg overlap] else []
  | _, _ => []

/-- The token-sale cross-field checks, in push order. -/
def tokenSaleErrors (ts : TokenSaleModule) : List String :=
  minMaxErrors ts ++ dateErrors ts ++ overlapErrors ts

/-- `validateComplianceSpec`: accumulates every error and is valid exactly
when none was pushed. -/
def validateComplianceSpec (spec : ComplianceSpec) : ValidationResult :=
  let errors := basicErrors spec ++
    (match spec.tokenSale with
     | some ts => tokenSaleErrors ts
     | none => [])
  { valid := errors.isEmpty, errors := errors }

/-! ## Audit manifest generator (AuditDocumentGenerator) -/

/-- `countHybridRules`: one count for a present `kyc_threshold_usd`
(`!== undefined`, so a zero threshold still counts) and one for a truthy
`accredited_only`; the two tests are independent. -/
def countHybridRules (spec : ComplianceSpec) : Nat :=
  let ts := spec.tokenSale
  let count := 0
  let count := if (ts.bind TokenSaleModule.kyc_threshold_usd).isSome then count + 1 else count
  let count := if truthyBool (ts.bind TokenSaleModule.accredited_only) then count + 1 else count
  count

/-- `countOnChainRules`: truthiness tests on the four on-chain fields. -/
def countOnChainRules (spec : ComplianceSpec) : Nat :=
  match spec.tokenSale with
  | none => 0
  | some ts =>
    (if truthyNat ts.max_cap_usd then 1 else 0) +
    (if truthyStr ts.start_date && truthyStr ts.end_date then 1 else 0) +
    (if ts.blocklist.isSome then 1 else 0) +
    (if truthyNat ts.min_investment_usd then 1 else 0)

/-- `countOffChainRules`: one for a truthy investor-verification bad-actor
flag, plus the key counts of `disclosures` and `ongoing_reporting`. -/
def countOffChainRules (spec : ComplianceSpec) : Nat :=
  let ms := spec.modules
  (if truthyBool ((ms.bind ComplianceModules.investor_verification).bind
      InvestorVerificationModule.bad_actor_check_required) then 1 else 0) +
  ((ms.bind ComplianceModules.disclosures).getD []).length +
  ((ms.bind ComplianceModules.ongoing_reporting).getD []).length

/-- `extractComplianceChecks`: human-readable check names by field presence
or truthiness, in push order. -/
def extractComplianceChecks (spec : ComplianceSpec) : List String :=
  (match spec.tokenSale with
   | none => []
   | some ts =>
     (if truthyNat ts.max_cap_usd then ["Maximum cap enforcement"] else []) ++
     (if ts.kyc_threshold_usd.isSome then ["KYC verification threshold"] else []) ++
     (if truthyBool ts.accredited_only then ["Accredited investor verification"] else []) ++
     (if ts.blocklist.isSome then ["Jurisdiction blocklist"] else []) ++
     (if truthyNat ts.min_investment_usd then ["Minimum investment amount"] else []) ++
     (if truthyNat ts.lockup_days then ["Token lockup period"] else [])) ++
  (match spec.modules.bind ComplianceModules.investor_verification with
   | none => []
   | some v => if truthyBool v.bad_actor_check_required then ["Bad actor disqualification"] else [])

structure ComplianceFramework where
  version : Option String
  jurisdiction : String
  framework : String
  generated_at : String
deriving Repr, DecidableEq

structure EnforcementSummary where
  on_chain_rules : Nat
  off_chain_rules : Nat
  hybrid_rules : Nat
deriving Repr, DecidableEq

/-- The audit manifest object, before JSON serialization. -/
structure AuditManifest where
  compliance_framework : ComplianceFramework
  enforcement_summary : EnforcementSummary
  modules_implemented : List String
  compliance_checks : List String
  generated_artifacts : List String
deriving Repr, DecidableEq

/-- The manifest `AuditDocumentGenerator.generate` assembles; the
`generated_at` clock read is the `nowIso` parameter. -/
def auditManifest (spec : ComplianceSpec) (nowIso : String) : AuditManifest :=
  { compliance_framework :=
      { version := spec.version
        jurisdiction := jsOrStr (spec.metadata.bind ComplianceMetadata.jurisdiction) "N/A"
        framework := jsOrStr (spec.metadata.bind ComplianceMetadata.regulation_framework) "Custom"
        generated_at := nowIso }
    enforcement_summary :=
      { on_chain_rules := countOnChainRules spec
        off_chain_rules := countOffChainRules spec
        hybrid_rules := countHybridRules spec }
    modules_implemented := ((spec.modules.map ComplianceModules.keyList).getD [])
    compliance_checks := extractComplianceChecks spec
    generated_artifacts := ["Guardrail.sol or Guardrail.rs", "policy.md", "audit.json"] }

/-! ## Contract and document generator templates

Each generator in the source returns one JavaScript template literal with
interpolation holes. The fixed text between holes is reproduced verbatim
below as `...PartN` string constants (with one extra split isolating the
claim-relevant fragment of a part), and each generator is the concatenation
of these parts with the spliced values, exactly as in the source. -/

-- v1: fixed template parts; holes in order: ['startTimestamp', 'endTimestamp', 'tokenSale.max_cap_usd', 'tokenSale.kyc_threshold_usd', 'blocklistEntries']
def v1Part0 : String :=
  "// SPDX-License-Identifier: MIT\npragma solidity ^0.8.19;\n\n/**\n * @title Guardrail\n * @notice Compliance guardrail contract for token sale\n * @dev Auto-generated from compliance.yaml specification\n */\ncontract Guardrail \x7b\n    uint256 public immutable saleStartTime;\n    uint256 public immutable saleEndTime;\n    uint256 public immutable maxCapUSD;\n    uint256 public immutable kycThresholdUSD;\n    \n    mapping(string => bool) public blockedCountries;\n    mapping(address => uint256) public contributions;\n    uint256 public totalRaisedUSD;\n    \n    event ContributionReceived(address indexed contributor, uint256 amountUSD);\n    event ComplianceCheckFailed(address indexed contributor, string reason);\n    \n    constructor() \x7b\n        // Initialize sale parameters from compliance spec\n        saleStartTime = "
def v1Part1 : String :=
  ";\n        saleEndTime = "
def v1Part2 : String :=
  ";\n        maxCapUSD = "
def v1Part3 : String :=
  ";\n        kycThresholdUSD = "
def v1Part4 : String :=
  ";\n        \n        // Initialize blocked countries\n"
def v1Part5a : String :=
  "\n    \x7d\n    \n    /**\n     * @notice Check if the sale is currently active\n     */\n    function isSaleActive() public view returns (bool) \x7b\n        return block.timestamp >= saleStartTime && block.timestamp <= saleEndTime;\n    \x7d\n    \n    /**\n     * @notice Validate contribution against compliance rules\n     * @param contributor Address of the contributor\n     * @param amountUSD Contribution amount in USD\n     * @param countryCode Two-letter country code of contributor\n     * @param hasKYC Whether contributor has completed KYC\n     */\n    function validateContribution(\n        address contributor,\n        uint256 amountUSD,\n        string memory countryCode,\n        bool hasKYC\n    ) public view returns (bool, string memory) \x7b\n        // Check sale window\n        if (!isSaleActive()) \x7b\n            return (false, \"Sale not active\");\n        \x7d\n        \n        // Check country restrictions\n        if (blockedCountries[countryCode]) \x7b\n            return (false, \"Country blocked\");\n        \x7d\n        \n        // Check cap\n        "
def v1CapCheckFragment : String :=
  "if (totalRaisedUSD + amountUSD > maxCapUSD) \x7b\n            return (false, \"Exceeds sale cap\");\n        \x7d"
def v1Part5b : String :=
  "\n        \n        // Check KYC requirement\n        uint256 totalContribution = contributions[contributor] + amountUSD;\n        if (totalContribution >= kycThresholdUSD && !hasKYC) \x7b\n            return (false, \"KYC required\");\n        \x7d\n        \n        return (true, \"\");\n    \x7d\n    \n    /**\n     * @notice Record a contribution (only for demonstration)\n     * @dev In production, this would be called by the token sale contract\n     */\n    function recordContribution(\n        address contributor,\n        uint256 amountUSD,\n        string memory countryCode,\n        bool hasKYC\n    ) external \x7b\n        (bool valid, string memory reason) = validateContribution(\n            contributor,\n            amountUSD,\n            countryCode,\n            hasKYC\n        );\n        \n        require(valid, reason);\n        \n        contributions[contributor] += amountUSD;\n        totalRaisedUSD += amountUSD;\n        \n        emit ContributionReceived(contributor, amountUSD);\n    \x7d\n\x7d"
-- concatenation order for v1: v1Part0 ++ HOLE ++ v1Part1 ++ HOLE ++ v1Part2 ++ HOLE ++ v1Part3 ++ HOLE ++ v1Part4 ++ HOLE ++ v1Part5a ++ v1CapCheckFragment ++ v1Part5b

-- v3: fixed template parts; holes in order: ['startTimestamp', 'endTimestamp', 'tokenSale.max_cap_usd', 'tokenSale.kyc_threshold_usd', 'blocklistEntries']
def v3Part0 : String :=
  "// SPDX-License-Identifier: MIT\npragma solidity ^0.8.19;\n\n/**\n * @title ComplianceGuardrail\n * @notice Provider-agnostic compliance guardrail contract with KYC/AML verification\n * @dev Auto-generated from compliance.yaml specification with oracle integration\n * @dev Supports multiple KYC providers through standardized verification states\n */\ncontract ComplianceGuardrail \x7b\n    // Verification status enum - matches generic KYC provider interface\n    enum VerificationStatus \x7b\n        PENDING,\n        IN_PROGRESS, \n        APPROVED,\n        REJECTED,\n        NEEDS_REVIEW\n    \x7d\n\n    enum VerificationType \x7b\n        INDIVIDUAL,\n        BUSINESS\n    \x7d\n\n    // Sale parameters\n    uint256 public immutable saleStartTime;\n    uint256 public immutable saleEndTime;\n    uint256 public immutable maxCapUSD;\n    uint256 public immutable kycThresholdUSD;\n    \n    // Oracle configuration\n    address public oracle;\n    address public owner;\n    string public kycProviderName;\n    \n    // Verification data structure\n    struct Verification \x7b\n        bool isVerified;\n        uint256 verifiedAt;\n        VerificationType verificationType;\n        VerificationStatus status;\n        string verificationId; // Provider-specific ID\n        string providerName;   // Which provider verified this user\n    \x7d\n    \n    // Mappings\n    mapping(string => bool) public blockedCountries;\n    mapping(address => uint256) public contributions;\n    mapping(address => Verification) public verifications;\n    uint256 public totalRaisedUSD;\n    \n    // Events\n    event ContributionReceived(address indexed contributor, uint256 amountUSD);\n    event ComplianceCheckFailed(address indexed contributor, string reason);\n    event VerificationUpdated(address indexed user, VerificationStatus status, string provider);\n    event OracleUpdated(address indexed oldOracle, address indexed newOracle);\n    event ProviderUpdated(string oldProvider, string newProvider);\n    \n    // Modifiers\n    modifier onlyOwner() \x7b\n        require(msg.sender == owner, \"Only owner\");\n        _;\n    \x7d\n    \n    modifier onlyOracle() \x7b\n        require(msg.sender == oracle, \"Only oracle\");\n        _;\n    \x7d\n    \n    modifier onlyApproved() \x7b\n        require(verifications[msg.sender].isVerified, \"Not verified\");\n        require(\n            verifications[msg.sender].status == VerificationStatus.APPROVED,\n            \"Verification not approved\"\n        );\n        _;\n    \x7d\n    \n    modifier onlyDuringSale() \x7b\n        require(block.timestamp >= saleStartTime, \"Sale not started\");\n        require(block.timestamp <= saleEndTime, \"Sale ended\");\n        _;\n    \x7d\n    \n    constructor(address _oracle, string memory _kycProviderName) \x7b\n        owner = msg.sender;\n        oracle = _oracle;\n        kycProviderName = _kycProviderName;\n        \n        // Initialize sale parameters from compliance spec\n        saleStartTime = "
def v3Part1 : String :=
  ";\n        saleEndTime = "
def v3Part2 : String :=
  ";\n        maxCapUSD = "
def v3Part3 : String :=
  ";\n        kycThresholdUSD = "
def v3Part4 : String :=
  ";\n        \n        // Initialize blocked countries\n"
def v3Part5a : String :=
  "\n    \x7d\n    \n    /**\n     * @notice Update the oracle address\n     * @param _newOracle New oracle address\n     */\n    function updateOracle(address _newOracle) external onlyOwner \x7b\n        require(_newOracle != address(0), \"Invalid oracle address\");\n        address oldOracle = oracle;\n        oracle = _newOracle;\n        emit OracleUpdated(oldOracle, _newOracle);\n    \x7d\n\n    /**\n     * @notice Update the KYC provider name\n     * @param _newProvider New provider name\n     */\n    function updateProvider(string memory _newProvider) external onlyOwner \x7b\n        string memory oldProvider = kycProviderName;\n        kycProviderName = _newProvider;\n        emit ProviderUpdated(oldProvider, _newProvider);\n    \x7d\n    \n    /**\n     * @notice Update user verification status (called by oracle)\n     * @param user User address\n     * @param verified Verification status boolean\n     * @param status Detailed verification status\n     * @param verificationType Type of verification\n     * @param verificationId Provider-specific verification ID\n     * @param providerName Name of the KYC provider\n     */\n    function updateVerification(\n        address user,\n        bool verified,\n        VerificationStatus status,\n        VerificationType verificationType,\n        string memory verificationId,\n        string memory providerName\n    ) external onlyOracle \x7b\n        verifications[user] = Verification(\x7b\n            isVerified: verified,\n            verifiedAt: block.timestamp,\n            verificationType: verificationType,\n            status: status,\n            verificationId: verificationId,\n            providerName: providerName\n        \x7d);\n        \n        emit VerificationUpdated(user, status, providerName);\n    \x7d\n    \n    /**\n     * @notice Check if a user is verified and approved\n     * @param user User address to check\n     * @return verified True if user is verified and approved\n     */\n    function isUserApproved(address user) public view returns (bool verified) \x7b\n        Verification memory v = verifications[user];\n        return v.isVerified && v.status == VerificationStatus.APPROVED;\n    \x7d\n    \n    /**\n     * @notice Get verification details for a user\n     * @param user User address\n     * @return verified Whether user is verified\n     * @return verifiedAt Timestamp of verification\n     * @return verificationType Type of verification\n     * @return status Current verification status\n     * @return verificationId Provider-specific ID\n     * @return providerName Name of the provider that verified\n     */\n    function getVerification(address user) external view returns (\n        bool verified,\n        uint256 verifiedAt,\n        VerificationType verificationType,\n        VerificationStatus status,\n        string memory verificationId,\n        string memory providerName\n    ) \x7b\n        Verification memory v = verifications[user];\n        return (v.isVerified, v.verifiedAt, v.verificationType, v.status, v.verificationId, v.providerName);\n    \x7d\n    \n    /**\n     * @notice Process a contribution with compliance checks\n     * @param contributor Address of the contributor\n     * @param amountUSD Amount in USD\n     * @param country Country code of contributor\n     */\n    function processContribution(\n        address contributor,\n        uint256 amountUSD,\n        string memory country\n    ) external onlyDuringSale \x7b\n        // Check if country is blocked\n        if (blockedCountries[country]) \x7b\n            emit ComplianceCheckFailed(contributor, \"Country blocked\");\n            revert(\"Country not allowed\");\n        \x7d\n        \n        // Check KYC requirement\n        "
def v3KycCheckFragment : String :=
  "if (amountUSD >= kycThresholdUSD) \x7b"
def v3Part5b : String :=
  "\n            if (!isUserApproved(contributor)) \x7b\n                emit ComplianceCheckFailed(contributor, \"KYC verification required\");\n                revert(\"KYC verification required for this amount\");\n            \x7d\n        \x7d\n        \n        // Check max cap\n        if (totalRaisedUSD + amountUSD > maxCapUSD) \x7b\n            emit ComplianceCheckFailed(contributor, \"Max cap exceeded\");\n            revert(\"Maximum cap would be exceeded\");\n        \x7d\n        \n        // Process contribution\n        contributions[contributor] += amountUSD;\n        totalRaisedUSD += amountUSD;\n        \n        emit ContributionReceived(contributor, amountUSD);\n    \x7d\n    \n    /**\n     * @notice Batch update multiple verifications (gas optimization)\n     * @param users Array of user addresses\n     * @param verifications Array of verification data\n     */\n    function batchUpdateVerifications(\n        address[] calldata users,\n        Verification[] calldata verifications\n    ) external onlyOracle \x7b\n        require(users.length == verifications.length, \"Arrays length mismatch\");\n        \n        for (uint256 i = 0; i < users.length; i++) \x7b\n            verifications[users[i]] = verifications[i];\n            emit VerificationUpdated(users[i], verifications[i].status, verifications[i].providerName);\n        \x7d\n    \x7d\n\x7d"
-- concatenation order for v3: v3Part0 ++ HOLE ++ v3Part1 ++ HOLE ++ v3Part2 ++ HOLE ++ v3Part3 ++ HOLE ++ v3Part4 ++ HOLE ++ v3Part5a ++ v3KycCheckFragment ++ v3Part5b

-- sl: fixed template parts; holes in order: ['startTimestamp', 'endTimestamp', 'tokenSale.max_cap_usd', 'tokenSale.kyc_threshold_usd', 'blocklistArray']
def slPart0 : String :=
  "use anchor_lang::prelude::*;\nuse anchor_lang::solana_program::clock::Clock;\n\ndeclare_id!(\"Fg6PaFpoGXkYsidMpWTK6W2BeZ7FEfcYkg476zPFsLnS\");\n\n/// Auto-generated from compliance.yaml specification\n#[program]\npub mod guardrail \x7b\n    use super::*;\n\n    /// Initialize the guardrail with compliance parameters\n    pub fn initialize(ctx: Context<Initialize>) -> Result<()> \x7b\n        let guardrail = &mut ctx.accounts.guardrail;\n        \n        // Initialize sale parameters from compliance spec\n        guardrail.sale_start_time = "
def slPart1 : String :=
  ";\n        guardrail.sale_end_time = "
def slPart2 : String :=
  ";\n        guardrail.max_cap_usd = "
def slPart3 : String :=
  ";\n        guardrail.kyc_threshold_usd = "
def slPart4 : String :=
  ";\n        guardrail.total_raised_usd = 0;\n        guardrail.authority = ctx.accounts.authority.key();\n        \n        // Initialize blocked countries\n        guardrail.blocked_countries = vec!["
def slPart5a : String :=
  "];\n        \n        Ok(())\n    \x7d\n\n    /// Validate a contribution against compliance rules\n    pub fn validate_contribution(\n        ctx: Context<ValidateContribution>,\n        amount_usd: u64,\n        country_code: String,\n        has_kyc: bool,\n    ) -> Result<()> \x7b\n        let guardrail = &ctx.accounts.guardrail;\n        let clock = Clock::get()?;\n        let current_time = clock.unix_timestamp as u64;\n        \n        // Check sale window\n        require!(\n            current_time >= guardrail.sale_start_time && \n            current_time <= guardrail.sale_end_time,\n            ErrorCode::SaleNotActive\n        );\n        \n        // Check country restrictions\n        require!(\n            !guardrail.blocked_countries.iter().any(|c| c == country_code.as_bytes()),\n            ErrorCode::CountryBlocked\n        );\n        \n        // Check cap\n        "
def slCapCheckFragment : String :=
  "require!(\n            guardrail.total_raised_usd + amount_usd <= guardrail.max_cap_usd,\n            ErrorCode::ExceedsCap\n        );"
def slPart5b : String :=
  "\n        \n        // Check KYC requirement\n        let contributor = &ctx.accounts.contributor;\n        let total_contribution = contributor.total_contribution + amount_usd;\n        require!(\n            total_contribution < guardrail.kyc_threshold_usd || has_kyc,\n            ErrorCode::KycRequired\n        );\n        \n        Ok(())\n    \x7d\n\n    /// Record a contribution (for demonstration)\n    pub fn record_contribution(\n        ctx: Context<RecordContribution>,\n        amount_usd: u64,\n        country_code: String,\n        has_kyc: bool,\n    ) -> Result<()> \x7b\n        // First validate\n        guardrail::validate_contribution(\n            Context::new(\n                ctx.program_id,\n                &mut ValidateContribution \x7b\n                    guardrail: ctx.accounts.guardrail.clone(),\n                    contributor: ctx.accounts.contributor.clone(),\n                \x7d,\n                &[],\n                BTreeMap::new(),\n            ),\n            amount_usd,\n            country_code,\n            has_kyc,\n        )?;\n        \n        // Then record\n        let guardrail = &mut ctx.accounts.guardrail;\n        let contributor = &mut ctx.accounts.contributor;\n        \n        contributor.total_contribution += amount_usd;\n        guardrail.total_raised_usd += amount_usd;\n        \n        emit!(ContributionReceived \x7b\n            contributor: ctx.accounts.contributor_wallet.key(),\n            amount_usd,\n        \x7d);\n        \n        Ok(())\n    \x7d\n\x7d\n\n#[derive(Accounts)]\npub struct Initialize<'info> \x7b\n    #[account(\n        init,\n        payer = authority,\n        space = 8 + Guardrail::LEN,\n        seeds = [b\"guardrail\"],\n        bump\n    )]\n    pub guardrail: Account<'info, Guardrail>,\n    #[account(mut)]\n    pub authority: Signer<'info>,\n    pub system_program: Program<'info, System>,\n\x7d\n\n#[derive(Accounts)]\npub struct ValidateContribution<'info> \x7b\n    #[account(seeds = [b\"guardrail\"], bump)]\n    pub guardrail: Account<'info, Guardrail>,\n    #[account(\n        seeds = [b\"contributor\", contributor.key().as_ref()],\n        bump\n    )]\n    pub contributor: Account<'info, Contributor>,\n\x7d\n\n#[derive(Accounts)]\npub struct RecordContribution<'info> \x7b\n    #[account(mut, seeds = [b\"guardrail\"], bump)]\n    pub guardrail: Account<'info, Guardrail>,\n    #[account(\n        init_if_needed,\n        payer = contributor_wallet,\n        space = 8 + Contributor::LEN,\n        seeds = [b\"contributor\", contributor_wallet.key().as_ref()],\n        bump\n    )]\n    pub contributor: Account<'info, Contributor>,\n    #[account(mut)]\n    pub contributor_wallet: Signer<'info>,\n    pub system_program: Program<'info, System>,\n\x7d\n\n#[account]\npub struct Guardrail \x7b\n    pub sale_start_time: u64,\n    pub sale_end_time: u64,\n    pub max_cap_usd: u64,\n    pub kyc_threshold_usd: u64,\n    pub total_raised_usd: u64,\n    pub authority: Pubkey,\n    pub blocked_countries: Vec<Vec<u8>>,\n\x7d\n\nimpl Guardrail \x7b\n    pub const LEN: usize = 8 + 8 + 8 + 8 + 8 + 32 + 4 + (10 * 2); // Assuming max 10 countries\n\x7d\n\n#[account]\npub struct Contributor \x7b\n    pub total_contribution: u64,\n\x7d\n\nimpl Contributor \x7b\n    pub const LEN: usize = 8;\n\x7d\n\n#[event]\npub struct ContributionReceived \x7b\n    pub contributor: Pubkey,\n    pub amount_usd: u64,\n\x7d\n\n#[error_code]\npub enum ErrorCode \x7b\n    #[msg(\"Sale is not active\")]\n    SaleNotActive,\n    #[msg(\"Country is blocked\")]\n    CountryBlocked,\n    #[msg(\"Contribution exceeds sale cap\")]\n    ExceedsCap,\n    #[msg(\"KYC verification required\")]\n    KycRequired,\n\x7d"
-- concatenation order for sl: slPart0 ++ HOLE ++ slPart1 ++ HOLE ++ slPart2 ++ HOLE ++ slPart3 ++ HOLE ++ slPart4 ++ HOLE ++ slPart5a ++ slCapCheckFragment ++ slPart5b

-- pol: fixed template parts; holes in order: ['metadata.project_name', 'metadata.description', 'complianceData.version', 'metadata.created_date', 'new Date().toISOString()', 'tokenSale.start_date', 'tokenSale.end_date', 'maxCapFormatted', 'blocklistFormatted', 'kycThresholdFormatted']
def polPart0 : String :=
  "# "
def polPart1 : String :=
  "\n\n## "
def polPart2 : String :=
  "\n\n**Document Version:** "
def polPart3 : String :=
  "  \n**Created Date:** "
def polPart4 : String :=
  "  \n**Generated:** "
def polPart5 : String :=
  "\n\n## Token Sale Compliance Rules\n\nThis document outlines the compliance requirements and restrictions for the token sale.\n\n### 1. Sale Period\n\nThe token sale will be conducted within a strictly defined time window:\n\n- **Start Date:** "
def polPart6 : String :=
  "\n- **End Date:** "
def polPart7 : String :=
  "\n\n*Contributions outside this period will be automatically rejected by the smart contract.*\n\n### 2. Funding Cap\n\nTo ensure regulatory compliance and controlled distribution:\n\n- **Maximum Cap:** "
def polPart8 : String :=
  "\n\n*Once this cap is reached, no further contributions will be accepted.*\n\n### 3. Geographic Restrictions\n\nDue to regulatory requirements, participants from the following jurisdictions are prohibited from participating:\n\n- **Blocked Countries:** "
def polPart9 : String :=
  "\n\n*The smart contract will verify participant jurisdiction and reject contributions from restricted regions.*\n\n### 4. Know Your Customer (KYC) Requirements\n\nTo comply with anti-money laundering (AML) regulations:\n\n- **KYC Threshold:** "
def polPart10a : String :=
  "\n- "
def polKycSentence : String :=
  "Contributors whose total contributions meet or exceed this threshold must complete KYC verification"
def polPart10b : String :=
  "\n- KYC verification must be completed before the contribution can be accepted\n\n### 5. Compliance Enforcement\n\nAll rules are enforced through:\n\n1. **On-chain Smart Contract:** The `Guardrail.sol` contract automatically validates all contributions\n2. **Real-time Validation:** Each contribution is checked against all rules before acceptance\n3. **Immutable Rules:** Once deployed, compliance rules cannot be modified\n\n### 6. Audit Trail\n\nAll compliance checks and contribution attempts are recorded on-chain, providing a complete audit trail including:\n\n- Contribution attempts (successful and failed)\n- Reasons for any rejected contributions\n- Timestamp of all activities\n\n---\n\n*This document was automatically generated from the compliance specification and represents the authoritative compliance policy for this token sale.*"
-- concatenation order for pol: polPart0 ++ HOLE ++ polPart1 ++ HOLE ++ polPart2 ++ HOLE ++ polPart3 ++ HOLE ++ polPart4 ++ HOLE ++ polPart5 ++ HOLE ++ polPart6 ++ HOLE ++ polPart7 ++ HOLE ++ polPart8 ++ HOLE ++ polPart9 ++ HOLE ++ polPart10a ++ polKycSentence ++ polPart10b


/-! ## Splice-value helpers shared by the generators -/

/-- Splicing a possibly-`NaN` number into a template (`NaN` prints `NaN`). -/
def spliceNum : Option Int → String
  | none => "NaN"
  | some n => toString n

/-- Splicing a possibly-`undefined` field into a template
(`undefined` prints `undefined`). -/
def spliceNat : Option Nat → String
  | none => "undefined"
  | some n => toString n

/-- Splicing a possibly-`undefined` string field into a template. -/
def spliceStr : Option String → String
  | none => "undefined"
  | some s => s

/-- `Math.floor(new Date(d).getTime() / 1000)`. -/
def dateEpochSeconds (d : Option String) : Option Int :=
  epochSeconds (jsGetTime d)

/-- `tokenSale.blocklist.map(c => \`        blockedCountries["..."] = true;\`).join('\n')`. -/
def blocklistEntries (bl : List String) : String :=
  jsJoin "\n" (bl.map (fun country =>
    "        blockedCountries[\"" ++ country ++ "\"] = true;"))

/-- `tokenSale.blocklist.map(c => \`b"..."\`).join(', ')` of the Solana
generator. -/
def blocklistArray (bl : List String) : String :=
  jsJoin ", " (bl.map (fun country => "b\"" ++ country ++ "\""))

/-- Digit grouping of `Intl.NumberFormat('en-US')` (input is the reversed
digit list). -/
def groupComma3 : List Char → List Char
  | a :: b :: c :: d :: rest => a :: b :: c :: ',' :: groupComma3 (d :: rest)
  | l => l

/-- `new Intl.NumberFormat('en-US', {style: 'currency', currency: 'USD',
maximumFractionDigits: 0}).format(x)`; formatting `undefined` yields
`"$NaN"`. -/
def formatUSD : Option Nat → String
  | none => "$NaN"
  | some n => "$" ++ String.mk ((groupComma3 (toString n).data.reverse).reverse)

/-! ## The contract generators -/

/-- The v1 template body for a token-sale module and its blocklist. -/
def v1Body (ts : TokenSaleModule) (bl : List String) : String :=
  v1Part0 ++ spliceNum (dateEpochSeconds ts.start_date) ++
  v1Part1 ++ spliceNum (dateEpochSeconds ts.end_date) ++
  v1Part2 ++ spliceNat ts.max_cap_usd ++ v1Part3 ++ spliceNat ts.kyc_threshold_usd ++
  v1Part4 ++ blocklistEntries bl ++
  (v1Part5a ++ v1CapCheckFragment ++ v1Part5b)

/-- `generateSolidityContract` (v1). Missing dates splice `NaN` timestamps,
missing caps splice `undefined`; a missing blocklist makes
`tokenSale.blocklist.map` throw a `TypeError`, modelled as `Except.error`. -/
def generateSolidityContract (spec : ComplianceSpec) : Except String String :=
  match spec.tokenSale with
  | none => .error "No token_sale module found in compliance data"
  | some ts =>
    match ts.blocklist with
    | none => .error "TypeError: Cannot read properties of undefined (reading 'map')"
    | some bl => .ok (v1Body ts bl)

/-- The v3 `startTimestamp`: a truthy `start_date` is converted to epoch
seconds (possibly `NaN`), otherwise `Math.floor(Date.now() / 1000)`. -/
def v3Start (ts : TokenSaleModule) (nowMs : Int) : Option Int :=
  if truthyStr ts.start_date then dateEpochSeconds ts.start_date
  else some (Int.fdiv nowMs 1000)

/-- The v3 `endTimestamp`: a truthy `end_date` is converted, otherwise
`Math.floor(Date.now() / 1000) + 365*24*60*60`. -/
def v3End (ts : TokenSaleModule) (nowMs : Int) : Option Int :=
  if truthyStr ts.end_date then dateEpochSeconds ts.end_date
  else some (Int.fdiv nowMs 1000 + 365 * 24 * 60 * 60)

/-- The v3 template body; the blocklist defaults to `[]` via
`(tokenSale.blocklist || [])`. -/
def v3Body (ts : TokenSaleModule) (nowMs : Int) : String :=
  v3Part0 ++ spliceNum (v3Start ts nowMs) ++ v3Part1 ++ spliceNum (v3End ts nowMs) ++
  v3Part2 ++ spliceNat ts.max_cap_usd ++ v3Part3 ++ spliceNat ts.kyc_threshold_usd ++
  v3Part4 ++ blocklistEntries (ts.blocklist.getD []) ++
  (v3Part5a ++ v3KycCheckFragment ++ v3Part5b)

/-- `generateProviderAgnosticContract` (v3). Never throws once `token_sale`
is present; reads the system clock (`nowMs`) when either date is absent. -/
def generateProviderAgnosticContract (spec : ComplianceSpec) (nowMs : Int) :
    Except String String :=
  match spec.tokenSale with
  | none => .error "No token_sale module found in compliance data"
  | some ts => .ok (v3Body ts nowMs)

/-- The Solana template body. -/
def slBody (ts : TokenSaleModule) (bl : List String) : String :=
  slPart0 ++ spliceNum (dateEpochSeconds ts.start_date) ++
  slPart1 ++ spliceNum (dateEpochSeconds ts.end_date) ++
  slPart2 ++ spliceNat ts.max_cap_usd ++ slPart3 ++ spliceNat ts.kyc_threshold_usd ++
  slPart4 ++ blocklistArray bl ++
  (slPart5a ++ slCapCheckFragment ++ slPart5b)

/-- `generateSolanaProgram`. Like v1: no date defaults (`NaN` splices) and a
`TypeError` on a missing blocklist. -/
def generateSolanaProgram (spec : ComplianceSpec) : Except String String :=
  match spec.tokenSale with
  | none => .error "No token_sale module found in compliance data"
  | some ts =>
    match ts.blocklist with
    | none => .error "TypeError: Cannot read properties of undefined (reading 'map')"
    | some bl => .ok (slBody ts bl)

/-- The policy document body; its clock read (`Generated:` line) is the
`nowIso` parameter. -/
def polBody (md : ComplianceMetadata) (version : Option String)
    (ts : TokenSaleModule) (bl : List String) (nowIso : String) : String :=
  polPart0 ++ spliceStr md.project_name ++ polPart1 ++ spliceStr md.description ++
  polPart2 ++ spliceStr version ++ polPart3 ++ spliceStr md.created_date ++
  polPart4 ++ nowIso ++ polPart5 ++ spliceStr ts.start_date ++
  polPart6 ++ spliceStr ts.end_date ++ polPart7 ++ formatUSD ts.max_cap_usd ++
  polPart8 ++ jsJoin ", " bl ++ polPart9 ++ formatUSD ts.kyc_threshold_usd ++
  (polPart10a ++ polKycSentence ++ polPart10b)

/-- `generatePolicyDocument`. Throws on a missing `token_sale`; then
`tokenSale.blocklist.join` throws on a missing blocklist; then the template
reads `metadata.project_name`, throwing when `metadata` is absent. -/
def generatePolicyDocument (spec : ComplianceSpec) (nowIso : String) :
    Except String String :=
  match spec.tokenSale with
  | none => .error "No token_sale module found in compliance data"
  | some ts =>
    match ts.blocklist with
    | none => .error "TypeError: Cannot read properties of undefined (reading 'join')"
    | some bl =>
      match spec.metadata with
      | none => .error "TypeError: Cannot read properties of undefined (reading 'project_name')"
      | some md => .ok (polBody md spec.version ts bl nowIso)

/-! ## Audit manifest serialization -/

/-- JSON string literal (the manifest's strings need no escaping). -/
def jsonStr (s : String) : String := "\"" ++ s ++ "\""

def jsonStrList (l : List String) : String :=
  "[" ++ jsJoin ", " (l.map jsonStr) ++ "]"

/-- `JSON.stringify(manifest)` up to insignificant whitespace (the source
passes `null, 2` for indentation, which no claim inspects); a `version`
that is `undefined` is dropped, as `JSON.stringify` does. -/
def auditSerialize (m : AuditManifest) : String :=
  "\x7b\"compliance_framework\": \x7b" ++
    (match m.compliance_framework.version with
     | none => ""
     | some v => "\"version\": " ++ jsonStr v ++ ", ") ++
    "\"jurisdiction\": " ++ jsonStr m.compliance_framework.jurisdiction ++ ", " ++
    "\"framework\": " ++ jsonStr m.compliance_framework.framework ++ ", " ++
    "\"generated_at\": " ++ jsonStr m.compliance_framework.generated_at ++ "\x7d, " ++
  "\"enforcement_summary\": \x7b\"on_chain_rules\": " ++
    toString m.enforcement_summary.on_chain_rules ++
    ", \"off_chain_rules\": " ++ toString m.enforcement_summary.off_chain_rules ++
    ", \"hybrid_rules\": " ++ toString m.enforcement_summary.hybrid_rules ++ "\x7d, " ++
  "\"modules_implemented\": " ++ jsonStrList m.modules_implemented ++ ", " ++
  "\"compliance_checks\": " ++ jsonStrList m.compliance_checks ++ ", " ++
  "\"generated_artifacts\": " ++ jsonStrList m.generated_artifacts ++ "\x7d"

/-- `AuditDocumentGenerator.generate`: reading
`spec.metadata.jurisdiction` throws when metadata is absent. -/
def auditGenerate (spec : ComplianceSpec) (nowIso : String) : Except String String :=
  match spec.metadata with
  | none => .error "TypeError: Cannot read properties of undefined (reading 'jurisdiction')"
  | some _ => .ok (auditSerialize (auditManifest spec nowIso))

/-! ## The compilation orchestrator (ShorCompliance.compile) -/

inductive Blockchain
  | ethereum
  | solana
deriving Repr, DecidableEq

/-- `getFileExtension` of the selected contract generator. -/
def fileExtension : Blockchain → String
  | .ethereum => "sol"
  | .solana => "rs"

/-- The generators `compile` dispatches to, abstracted so that the claim
"an invalid specification invokes no generator" is expressible as
independence from this record. -/
structure GeneratorSet where
  contractGen : Blockchain → ComplianceSpec → Except String String
  policyGen : ComplianceSpec → Except String String
  auditGen : ComplianceSpec → Except String String

/-- The generators the factory actually wires up: the Ethereum contract
generator delegates to the provider-agnostic v3 generator, the Solana one
to `generateSolanaProgram`. -/
def realGenerators (nowMs : Int) (nowIso : String) : GeneratorSet :=
  { contractGen := fun bc spec =>
      match bc with
      | .ethereum => generateProviderAgnosticContract spec nowMs
      | .solana => generateSolanaProgram spec
    policyGen := fun spec => generatePolicyDocument spec nowIso
    auditGen := fun spec => auditGenerate spec nowIso }

structure CompileMetadata where
  jurisdiction : Option String
  blockchain : Blockchain
  timestamp : String
deriving Repr, DecidableEq

structure CompileResult where
  contracts : List (String × String)
  documents : List (String × String)
  metadata : CompileMetadata
deriving Repr, DecidableEq

/-- `ShorCompliance.compile`: validate first and throw a single error
joining all accumulated validation errors; otherwise run the contract
generator for the selected blockchain (`options.blockchain` falling back
to the configured default), then the policy and audit document generators,
each thrown error propagating unchanged; assemble the bundle. -/
def compile (gens : GeneratorSet) (defaultBlockchain : Blockchain)
    (spec : ComplianceSpec) (optionsBlockchain : Option Blockchain)
    (nowIso : String) : Except String CompileResult :=
  let validation := validateComplianceSpec spec
  if !validation.valid then
    .error ("Invalid compliance specification: " ++ jsJoin ", " validation.errors)
  else
    let bc := optionsBlockchain.getD defaultBlockchain
    match gens.contractGen bc spec with
    | .error e => .error e
    | .ok contractCode =>
      match gens.policyGen spec with
      | .error e => .error e
      | .ok policy =>
        match gens.auditGen spec with
        | .error e => .error e
        | .ok audit =>
          .ok { contracts := [("Guardrail." ++ fileExtension bc, contractCode)]
                documents := [("policy.md", policy), ("audit.json", audit)]
                metadata :=
                  { jurisdiction := spec.metadata.bind ComplianceMetadata.jurisdiction
                    blockchain := bc
                    timestamp := nowIso } }

/-! ## Semantics of the emitted contract code

The templates above emit fixed contract code whose only spec-dependence is
the spliced constants. The following functions are direct translations of
the emitted validation/contribution entry points (USD amounts and running
totals as `Nat`, addresses as `String`), used to settle the claims about
the emitted comparison semantics. -/

/-- The four spliced sale parameters of every guardrail template. -/
structure GuardrailParams where
  saleStartTime : Int
  saleEndTime : Int
  maxCapUSD : Nat
  kycThresholdUSD : Nat
  blockedCountries : List String

/-- Mutable state of the v1 `Guardrail` contract. -/
structure V1State where
  contributions : String → Nat
  totalRaisedUSD : Nat

/-- The emitted v1 `validateContribution` (checks in source order:
sale window, country, cap, cumulative KYC threshold). -/
def v1ValidateContribution (p : GuardrailParams) (st : V1State)
    (blockTimestamp : Int) (contributor : String) (amountUSD : Nat)
    (countryCode : String) (hasKYC : Bool) : Bool × String :=
  if ¬ (blockTimestamp ≥ p.saleStartTime ∧ blockTimestamp ≤ p.saleEndTime) then
    (false, "Sale not active")
  else if p.blockedCountries.contains countryCode then
    (false, "Country blocked")
  else if st.totalRaisedUSD + amountUSD > p.maxCapUSD then
    (false, "Exceeds sale cap")
  else
    let totalContribution := st.contributions contributor + amountUSD
    if totalContribution ≥ p.kycThresholdUSD ∧ ¬ hasKYC then
      (false, "KYC required")
    else (true, "")

/-- Sumsub-style verification record of the emitted v2 contract. -/
structure V2Verification where
  isVerified : Bool
  reviewAnswer : String

/-- The emitted v2 `validateContribution`: cumulative total against the
KYC threshold, requiring a verified `GREEN` review above it (keccak string
comparison modelled as string equality). -/
def v2ValidateContribution (p : GuardrailParams) (st : V1State)
    (verifications : String → V2Verification) (blockTimestamp : Int)
    (contributor : String) (amountUSD : Nat) (countryCode : String) :
    Bool × String :=
  if ¬ (blockTimestamp ≥ p.saleStartTime ∧ blockTimestamp ≤ p.saleEndTime) then
    (false, "Sale not active")
  else if p.blockedCountries.contains countryCode then
    (false, "Country blocked")
  else if st.totalRaisedUSD + amountUSD > p.maxCapUSD then
    (false, "Exceeds sale cap")
  else
    let totalContribution := st.contributions contributor + amountUSD
    if totalContribution ≥ p.kycThresholdUSD then
      if ¬ (verifications contributor).isVerified then
        (false, "Verification required")
      else if (verifications contributor).reviewAnswer ≠ "GREEN" then
        (false, "Verification not approved")
      else (true, "")
    else (true, "")

inductive VerificationStatus
  | PENDING
  | IN_PROGRESS
  | APPROVED
  | REJECTED
  | NEEDS_REVIEW
deriving Repr, DecidableEq

/-- Verification record of the emitted v3 contract (the fields its gate
reads). -/
structure V3Verification where
  isVerified : Bool
  status : VerificationStatus

/-- The emitted v3 `isUserApproved`. -/
def v3IsUserApproved (verifications : String → V3Verification) (user : String) :
    Bool :=
  (verifications user).isVerified && (verifications user).status == .APPROVED

/-- Mutable state of the emitted v3 `ComplianceGuardrail`. -/
structure V3State where
  contributions : String → Nat
  totalRaisedUSD : Nat
  verifications : String → V3Verification

/-- The emitted v3 `processContribution` (checks in source order: sale
window via `onlyDuringSale`, country, KYC — against the single
transaction amount only — then cap), reverts modelled as `Except.error`. -/
def v3ProcessContribution (p : GuardrailParams) (st : V3State)
    (blockTimestamp : Int) (contributor : String) (amountUSD : Nat)
    (country : String) : Except String V3State :=
  if ¬ (blockTimestamp ≥ p.saleStartTime) then .error "Sale not started"
  else if ¬ (blockTimestamp ≤ p.saleEndTime) then .error "Sale ended"
  else if p.blockedCountries.contains country then .error "Country not allowed"
  else if amountUSD ≥ p.kycThresholdUSD ∧ ¬ v3IsUserApproved st.verifications contributor then
    .error "KYC verification required for this amount"
  else if st.totalRaisedUSD + amountUSD > p.maxCapUSD then
    .error "Maximum cap would be exceeded"
  else
    .ok { st with
          contributions := fun a =>
            if a == contributor then st.contributions a + amountUSD
            else st.contributions a
          totalRaisedUSD := st.totalRaisedUSD + amountUSD }

inductive SolanaError
  | SaleNotActive
  | CountryBlocked
  | ExceedsCap
  | KycRequired
deriving Repr, DecidableEq

/-- The spliced guardrail account of the emitted Solana program. -/
structure SolanaGuardrail where
  sale_start_time : Nat
  sale_end_time : Nat
  max_cap_usd : Nat
  kyc_threshold_usd : Nat
  total_raised_usd : Nat
  blocked_countries : List String

/-- The emitted Solana `validate_contribution`: `require!` chains for sale
window, country, cap (`total + new <= cap`), and cumulative KYC threshold
(`contributor.total_contribution + amount < threshold || has_kyc`). -/
def solanaValidateContribution (g : SolanaGuardrail) (contributorTotal : Nat)
    (currentTime : Nat) (amountUSD : Nat) (countryCode : String)
    (hasKYC : Bool) : Except SolanaError Unit :=
  if ¬ (currentTime ≥ g.sale_start_time ∧ currentTime ≤ g.sale_end_time) then
    .error .SaleNotActive
  else if g.blocked_countries.contains countryCode then
    .error .CountryBlocked
  else if ¬ (g.total_raised_usd + amountUSD ≤ g.max_cap_usd) then
    .error .ExceedsCap
  else if ¬ (contributorTotal + amountUSD < g.kyc_threshold_usd ∨ hasKYC) then
    .error .KycRequired
  else .ok ()

/-! ## Concrete specifications used as witnesses and counterexamples -/

/-- A minimal well-formed specification around a given token-sale module. -/
def mkSpec (ts : TokenSaleModule) : ComplianceSpec :=
  { version := some "1.0", metadata := some {},
    modules := some { token_sale := some ts } }

def c3CounterTS : TokenSaleModule :=
  { min_investment_usd := some 1, max_cap_usd := some 0 }

/-- `min_investment_usd` and `max_cap_usd` both present, with the cap zero:
JavaScript truthiness skips the comparison. -/
def c3CounterSpec : ComplianceSpec := mkSpec c3CounterTS

def c3WitnessTS : TokenSaleModule :=
  { min_investment_usd := some 100000, max_cap_usd := some 50000 }

/-- Example scenario 2 of the specification. -/
def c3WitnessSpec : ComplianceSpec := mkSpec c3WitnessTS

def c8WitnessTS : TokenSaleModule :=
  { blocklist := some ["US"], whitelist := some ["US"] }

/-- Example scenario 3 of the specification. -/
def c8WitnessSpec : ComplianceSpec := mkSpec c8WitnessTS

def c10WitnessTS : TokenSaleModule :=
  { start_date := some "not-a-date", end_date := some "2024-01-01" }

/-- Both dates present but the start date does not parse. -/
def c10WitnessSpec : ComplianceSpec := mkSpec c10WitnessTS

def c9TS : TokenSaleModule := { accredited_only := some true }

/-- `accredited_only: true` with no KYC threshold. -/
def c9Spec : ComplianceSpec := mkSpec c9TS

def c2TS : TokenSaleModule := { max_cap_usd := some 5000000 }

/-- A token-sale module with no sale dates: the v3 generator synthesizes
the default window from the system clock. -/
def c2Spec : ComplianceSpec := mkSpec c2TS

def c2WitnessTS : TokenSaleModule :=
  { max_cap_usd := some 5000000, kyc_threshold_usd := some 1000,
    start_date := some "2024-03-01", end_date := some "2024-06-01",
    blocklist := some ["US", "CN", "IR"] }

/-- Example scenario 1 of the specification. -/
def c2WitnessSpec : ComplianceSpec := mkSpec c2WitnessTS

def c6TS : TokenSaleModule := {}

/-- A `token_sale` module with every optional field absent. -/
def c6Spec : ComplianceSpec := mkSpec c6TS

/-- A specification that validates cleanly but has no `token_sale`
module. -/
def c1CounterSpec : ComplianceSpec :=
  { version := some "1.0", metadata := some {},
    modules := some { investor_verification := some {} } }

/-- Sale parameters for exercising the emitted KYC gates: threshold 1000,
wide-open sale window, no blocked countries. -/
def c4Params : GuardrailParams :=
  { saleStartTime := 0, saleEndTime := 100000000000,
    maxCapUSD := 5000000, kycThresholdUSD := 1000, blockedCountries := [] }

/-- A participant (`alice`) with 600 USD of recorded contributions. -/
def c4PriorContrib : String → Nat := fun a => if a == "alice" then 600 else 0

def c4V3State : V3State :=
  { contributions := c4PriorContrib, totalRaisedUSD := 600,
    verifications := fun _ => { isVerified := false, status := .PENDING } }

def c4V1State : V1State :=
  { contributions := c4PriorContrib, totalRaisedUSD := 600 }

def c4V2Verifications : String → V2Verification :=
  fun _ => { isVerified := false, reviewAnswer := "" }

def c4SolanaGuardrail : SolanaGuardrail :=
  { sale_start_time := 0, sale_end_time := 100000000000,
    max_cap_usd := 5000000, kyc_threshold_usd := 1000,
    total_raised_usd := 600, blocked_countries := [] }

/-! ## Heap model of the jurisdiction registry
(JSON.parse / JSON.stringify over an address store) -/

inductive JPrim
  | jnull
  | jbool (b : Bool)
  | jnum (n : Int)
  | jstr (s : String)
deriving Repr, DecidableEq

inductive JVal
  | prim (p : JPrim)
  | ref (a : Nat)
deriving Repr, DecidableEq

inductive JNode
  | obj (fields : List (String × JVal))
  | arr (elems : List JVal)
deriving Repr, DecidableEq

structure Store where
  nodes : List JNode
deriving Repr, DecidableEq

def Store.size (st : Store) : Nat := st.nodes.length

def Store.get? (st : Store) (a : Nat) : Option JNode := st.nodes.get? a

def Store.set (st : Store) (a : Nat) (n : JNode) : Store := ⟨st.nodes.set a n⟩

inductive Json
  | null
  | bool (b : Bool)
  | num (n : Int)
  | str (s : String)
  | obj (fields : List (String × Json))
  | arr (elems : List Json)
deriving Repr

def primJson : JPrim → Json
  | .jnull => .null
  | .jbool b => .bool b
  | .jnum n => .num n
  | .jstr s => .str s

def decodeFieldsF (f : JVal → Option Json) :
    List (String × JVal) → Option (List (String × Json))
  | [] => some []
  | (k, v) :: rest =>
    match f v, decodeFieldsF f rest with
    | some j, some r => some ((k, j) :: r)
    | _, _ => none

def decodeElemsF (f : JVal → Option Json) : List JVal → Option (List Json)
  | [] => some []
  | v :: rest =>
    match f v, decodeElemsF f rest with
    | some j, some r => some (j :: r)
    | _, _ => none

def decodeVal (st : Store) : Nat → JVal → Option Json
  | _, .prim p => some (primJson p)
  | 0, .ref _ => none
  | fuel + 1, .ref a =>
    match st.get? a with
    | none => none
    | some (.obj fields) => (decodeFieldsF (decodeVal st fuel) fields).map Json.obj
    | some (.arr elems) => (decodeElemsF (decodeVal st fuel) elems).map Json.arr

mutual
def allocVal : Json → Store → JVal × Store
  | .null, st => (.prim .jnull, st)
  | .bool b, st => (.prim (.jbool b), st)
  | .num n, st => (.prim (.jnum n), st)
  | .str s, st => (.prim (.jstr s), st)
  | .obj fields, st =>
    let (fvals, st') := allocFields fields st
    (.ref st'.size, ⟨st'.nodes ++ [.obj fvals]⟩)
  | .arr elems, st =>
    let (evals, st') := allocElems elems st
    (.ref st'.size, ⟨st'.nodes ++ [.arr evals]⟩)

def allocFields : List (String × Json) → Store → List (String × JVal) × Store
  | [], st => ([], st)
  | (k, v) :: rest, st =>
    let (jv, st') := allocVal v st
    let (rvals, st'') := allocFields rest st'
    ((k, jv) :: rvals, st'')

def allocElems : List Json → Store → List JVal × Store
  | [], st => ([], st)
  | v :: rest, st =>
    let (jv, st') := allocVal v st
    let (rvals, st'') := allocElems rest st'
    (jv :: rvals, st'')
end

/-- End address of the span occupied by a value whose span starts at `lo`:
primitives occupy nothing, a reference's subtree ends just after its root
node (children sit below it). -/
def valEnd (v : JVal) (lo : Nat) : Nat :=
  match v with
  | .prim _ => lo
  | .ref a => a + 1

mutual
def spanB (st : Store) : Nat → JVal → Nat → Nat → Bool
  | _, .prim _, lo, hi => lo == hi
  | 0, .ref _, _, _ => false
  | fuel + 1, .ref a, lo, hi =>
    (hi == a + 1) && (lo ≤ a) &&
    (match st.get? a with
     | some (.obj fields) => spanFieldsB st fuel fields lo a
     | some (.arr elems) => spanElemsB st fuel elems lo a
     | none => false)

def spanFieldsB (st : Store) : Nat → List (String × JVal) → Nat → Nat → Bool
  | _, [], lo, hi => lo == hi
  | fuel, (_, v) :: rest, lo, hi =>
    spanB st fuel v lo (valEnd v lo) && spanFieldsB st fuel rest (valEnd v lo) hi

def spanElemsB (st : Store) : Nat → List JVal → Nat → Nat → Bool
  | _, [], lo, hi => lo == hi
  | fuel, v :: rest, lo, hi =>
    spanB st fuel v lo (valEnd v lo) && spanElemsB st fuel rest (valEnd v lo) hi
end

def ValIn (S : Nat → Prop) : JVal → Prop
  | .prim _ => True
  | .ref a => S a

def NodeIn (S : Nat → Prop) : JNode → Prop
  | .obj fields => ∀ kv ∈ fields, ValIn S kv.2
  | .arr elems => ∀ v ∈ elems, ValIn S v

def AllocValOK (j : Json) (st : Store) : Prop :=
  st.nodes <+: (allocVal j st).2.nodes ∧
  valEnd (allocVal j st).1 st.size = (allocVal j st).2.size ∧
  ∃ N, spanB (allocVal j st).2 N (allocVal j st).1 st.size (allocVal j st).2.size = true ∧
    ∀ fuel, N ≤ fuel → decodeVal (allocVal j st).2 fuel (allocVal j st).1 = some j

def AllocFieldsOK (l : List (String × Json)) (st : Store) : Prop :=
  st.nodes <+: (allocFields l st).2.nodes ∧
  ∃ N, spanFieldsB (allocFields l st).2 N (allocFields l st).1 st.size
      (allocFields l st).2.size = true ∧
    ∀ fuel, N ≤ fuel →
      decodeFieldsF (decodeVal (allocFields l st).2 fuel) (allocFields l st).1 = some l

def AllocElemsOK (l : List Json) (st : Store) : Prop :=
  st.nodes <+: (allocElems l st).2.nodes ∧
  ∃ N, spanElemsB (allocElems l st).2 N (allocElems l st).1 st.size
      (allocElems l st).2.size = true ∧
    ∀ fuel, N ≤ fuel →
      decodeElemsF (decodeVal (allocElems l st).2 fuel) (allocElems l st).1 = some l

def jsGetField : List (String × JVal) → String → Option JVal
  | [], _ => none
  | (k', v) :: rest, k => if k' == k then some v else jsGetField rest k

/-- Property assignment: replace the first occurrence in place, else append. -/
def jsSetField : List (String × JVal) → String → JVal → List (String × JVal)
  | [], k, v => [(k, v)]
  | (k', v') :: rest, k, v =>
    if k' == k then (k', v) :: rest else (k', v') :: jsSetField rest k v

def jsGetJsonField : List (String × Json) → String → Option Json
  | [], _ => none
  | (k', v) :: rest, k => if k' == k then some v else jsGetJsonField rest k

def jsSetJsonField : List (String × Json) → String → Json → List (String × Json)
  | [], k, v => [(k, v)]
  | (k', v') :: rest, k, v =>
    if k' == k then (k', v) :: rest else (k', v') :: jsSetJsonField rest k v

/-- `obj.<k> = v` on the node at address `a` (no-op on non-objects; the
claims only exercise the object case). -/
def setObjField (st : Store) (a : Nat) (k : String) (v : JVal) : Store :=
  match st.get? a with
  | some (.obj fields) => st.set a (.obj (jsSetField fields k v))
  | _ => st

/-- `this.templates.get(jurisdictionId)` over the in-memory template map. -/
def lookupTemplate : List (String × JVal) → String → Option JVal
  | [], _ => none
  | (k, v) :: rest, id => if k == id then some v else lookupTemplate rest id

/-- The loader's in-memory state: a heap of JavaScript objects and the
id-to-template map whose values are references into that heap. -/
structure Registry where
  store : Store
  templates : List (String × JVal)

/-- `spec.metadata.<k> = v`: look up the `metadata` property of the root
object and write the field into that object; any non-object shape on the
way is a JavaScript `TypeError`, surfaced as `none`. -/
def stampMetadataField (st : Store) (root : JVal) (k : String) (v : JVal) :
    Option Store :=
  match root with
  | .ref r =>
    match st.get? r with
    | some (.obj fields) =>
      match jsGetField fields "metadata" with
      | some (.ref m) =>
        match st.get? m with
        | some (.obj _) => some (setObjField st m k v)
        | _ => none
      | _ => none
    | _ => none
  | _ => none

/-- What the two stamping assignments do to the decoded document. -/
def stampJson (t : Json) (id nowIso : String) : Json :=
  match t with
  | .obj fields =>
    match jsGetJsonField fields "metadata" with
    | some (.obj mfields) =>
      .obj (jsSetJsonField fields "metadata"
        (.obj (jsSetJsonField (jsSetJsonField mfields "generated_from" (.str id))
          "generated_at" (.str nowIso))))
    | _ => t
  | _ => t

/-- `JurisdictionLoader.generateComplianceSpec` (without the optional
`customizations` argument, i.e. the registry `get(id)` path): look the
template up (throwing a not-found error naming the id), deep-clone it via
`JSON.parse(JSON.stringify(template))` — the decode fuel `size + 1` covers
every acyclic reference chain, and a cyclic template is exactly where
`JSON.stringify` throws — then stamp `generated_from` and `generated_at`
into the fresh copy's metadata. -/
def generateComplianceSpec (reg : Registry) (id : String) (nowIso : String) :
    Except String (JVal × Store) :=
  match lookupTemplate reg.templates id with
  | none => .error ("Jurisdiction template '" ++ id ++ "' not found")
  | some tv =>
    match decodeVal reg.store (reg.store.size + 1) tv with
    | none => .error "TypeError: Converting circular structure to JSON"
    | some t =>
      let (v, st') := allocVal t reg.store
      match stampMetadataField st' v "generated_from" (.prim (.jstr id)) with
      | none => .error "TypeError: Cannot set properties of undefined"
      | some st₂ =>
        match stampMetadataField st₂ v "generated_at" (.prim (.jstr nowIso)) with
        | none => .error "TypeError: Cannot set properties of undefined"
        | some st₃ => .ok (v, st₃)

def valBelowB (n : Nat) : JVal → Bool
  | .prim _ => true
  | .ref a => a < n

def nodeBelowB (n : Nat) : JNode → Bool
  | .obj fields => fields.all (fun kv => valBelowB n kv.2)
  | .arr elems => elems.all (valBelowB n)

/-- Every node in the store references only existing addresses. -/
def storeWFB (st : Store) : Bool := st.nodes.all (nodeBelowB st.size)

def c7Store : Store :=
  ⟨[.obj [("jurisdiction", .prim (.jstr "US"))],
    .obj [("version", .prim (.jstr "1.0")), ("metadata", .ref 0)]]⟩

def c7Reg : Registry := ⟨c7Store, [("us-sec", .ref 1)]⟩

def c7TFields : List (String × Json) :=
  [("version", .str "1.0"), ("metadata", .obj [("jurisdiction", .str "US")])]

def c7TMFields : List (String × Json) := [("jurisdiction", .str "US")]

/-! ## Helper lemmas about the validator's error messages -/

/-- Every element of `basicErrors` is one of its three fixed strings. -/
theorem mem_basicErrors_cases {spec : ComplianceSpec} {e : String}
    (h : e ∈ basicErrors spec) :
    e = "Missing version field" ∨ e = "Missing metadata" ∨
      e = "No compliance modules defined" := by
  unfold basicErrors at h
  rcases List.mem_append.mp h with h' | h'
  · rcases List.mem_append.mp h' with h'' | h''
    · split at h'' <;> simp_all
    · split at h'' <;> simp_all
  · rcases hm : spec.modules with _ | ms <;> rw [hm] at h'
    · simp_all
    · split at h' <;> simp_all

/-- Every element of `minMaxErrors` is the fixed min/max message. -/
theorem mem_minMaxErrors_cases {ts : TokenSaleModule} {e : String}
    (h : e ∈ minMaxErrors ts) : e = minMaxMsg := by
  unfold minMaxErrors at h
  split at h
  · split at h <;> simp_all
  · simp_all

/-- Every element of `dateErrors` is the fixed date-ordering message. -/
theorem mem_dateErrors_cases {ts : TokenSaleModule} {e : String}
    (h : e ∈ dateErrors ts) : e = dateOrderMsg := by
  unfold dateErrors at h
  split at h
  · split at h <;> simp_all
  · simp_all

/-- Every element of `overlapErrors` is an overlap message for a
nonempty overlap list. -/
theorem mem_overlapErrors_cases {ts : TokenSaleModule} {e : String}
    (h : e ∈ overlapErrors ts) :
    ∃ l, l ≠ [] ∧ e = overlapMsg l := by
  unfold overlapErrors at h
  split at h
  next bl wl _ _ =>
    by_cases hlen : 0 < (List.filter (fun c => wl.contains c) bl).length
    · simp only [gt_iff_lt, hlen, if_true, List.mem_singleton] at h
      refine ⟨bl.filter (fun c => wl.contains c), ?_, h⟩
      intro hnil
      rw [hnil] at hlen
      simp at hlen
    · simp only [gt_iff_lt] at h
      rw [if_neg hlen] at h
      cases h
  · simp_all

/-- An overlap message is at least as long as its 53-character prefix. -/
theorem overlapMsg_length (l : List String) : 53 ≤ (overlapMsg l).length := by
  have : (overlapMsg l).length = overlapPrefix.length + (jsJoin ", " l).length := by
    simp [overlapMsg, String.length_append]
  rw [this]
  have : overlapPrefix.length = 53 := by decide
  omega

/-- The three basic messages and the two fixed token-sale messages are
all shorter than any overlap message, hence distinct from it. -/
theorem overlapMsg_ne_fixed (l : List String) :
    overlapMsg l ≠ "Missing version field" ∧
    overlapMsg l ≠ "Missing metadata" ∧
    overlapMsg l ≠ "No compliance modules defined" ∧
    overlapMsg l ≠ minMaxMsg ∧
    overlapMsg l ≠ dateOrderMsg := by
  have hlen := overlapMsg_length l
  refine ⟨?_, ?_, ?_, ?_, ?_⟩ <;>
    (intro h; rw [h] at hlen; revert hlen; decide)

/-- Unfolds the validator's error list for a specification with a
token-sale module. -/
theorem validate_errors_eq {spec : ComplianceSpec} {ts : TokenSaleModule}
    (hts : spec.tokenSale = some ts) :
    (validateComplianceSpec spec).errors =
      basicErrors spec ++ (minMaxErrors ts ++ dateErrors ts ++ overlapErrors ts) := by
  simp [validateComplianceSpec, hts, tokenSaleErrors]

/-- The validator is valid exactly when its error list is empty. -/
theorem validate_valid_iff (spec : ComplianceSpec) :
    (validateComplianceSpec spec).valid = true ↔
      (validateComplianceSpec spec).errors = [] := by
  simp [validateComplianceSpec]

theorem jsGE_none_left (x : Option Int) : jsGE none x = false := by
  cases x <;> rfl

theorem jsGE_none_right (x : Option Int) : jsGE x none = false := by
  cases x <;> rfl

/-- Any member of a joined list appears verbatim inside the joined string. -/
theorem mem_jsJoin (sep : String) (l : List String) (c : String) (h : c ∈ l) :
    ∃ pre post, (jsJoin sep l).data = pre ++ c.data ++ post := by
  induction l with
  | nil => cases h
  | cons a t ih =>
    cases t with
    | nil =>
      rcases List.mem_singleton.mp h with rfl
      exact ⟨[], [], by simp [jsJoin]⟩
    | cons b t' =>
      rcases List.mem_cons.mp h with rfl | h'
      · exact ⟨[], (sep ++ jsJoin sep (b :: t')).data, by
          simp [jsJoin, String.data_append, List.append_assoc]⟩
      · rcases ih h' with ⟨pre, post, hp⟩
        exact ⟨a.data ++ sep.data ++ pre, post, by
          simp [jsJoin, String.data_append, hp, List.append_assoc]⟩

/-! ## Claim C3 -/

/-- **C3 (counterexample).** With `min_investment_usd = 1` and
`max_cap_usd = 0` both present and `1 > 0`, the `value && value` truthiness
guard skips the comparison (`0` is falsy), so — contrary to the claim —
validation succeeds with no error at all. -/
theorem C3_counterexample :
    c3CounterSpec.tokenSale = some c3CounterTS ∧
    c3CounterTS.min_investment_usd = some 1 ∧
    c3CounterTS.max_cap_usd = some 0 ∧
    (1 : Nat) > 0 ∧
    validateComplianceSpec c3CounterSpec = { valid := true, errors := [] } := by
  refine ⟨rfl, rfl, rfl, by decide, by decide⟩

/-- **C3 (amended).** For a token-sale module whose `min_investment_usd` and
`max_cap_usd` are both present and nonzero (JavaScript-truthy): if
`min > max`, validation fails and its errors contain exactly the string
"Minimum investment cannot exceed maximum cap"; and whenever
`min ≤ max` (regardless of truthiness) no such error is reported. -/
theorem C3_minmax_validation (spec : ComplianceSpec) (ts : TokenSaleModule)
    (hts : spec.tokenSale = some ts) (m M : Nat)
    (hm : ts.min_investment_usd = some m) (hM : ts.max_cap_usd = some M) :
    (m ≠ 0 → M ≠ 0 → m > M →
      (validateComplianceSpec spec).valid = false ∧
      minMaxMsg ∈ (validateComplianceSpec spec).errors) ∧
    (m ≤ M → minMaxMsg ∉ (validateComplianceSpec spec).errors) := by
  constructor
  · intro hm0 hM0 hgt
    have herr : minMaxErrors ts = [minMaxMsg] := by
      unfold minMaxErrors
      rw [hm, hM]
      simp [truthyNat, hm0, hM0, hgt]
    have hmem : minMaxMsg ∈ (validateComplianceSpec spec).errors := by
      rw [validate_errors_eq hts, herr]
      simp
    refine ⟨?_, hmem⟩
    rcases hval : (validateComplianceSpec spec).valid with _ | _
    · rfl
    · exfalso
      have := (validate_valid_iff spec).mp hval
      rw [this] at hmem
      cases hmem
  · intro hle hmem
    rw [validate_errors_eq hts] at hmem
    rcases List.mem_append.mp hmem with h | h
    · rcases mem_basicErrors_cases h with h' | h' | h' <;> revert h' <;> decide
    · rcases List.mem_append.mp h with h | h
      · rcases List.mem_append.mp h with h | h
        · have hmm : minMaxErrors ts = [] := by
            unfold minMaxErrors
            rw [hm, hM]
            simp only [Option.getD_some]
            split
            · rw [if_neg (by omega)]
            · rfl
          rw [hmm] at h
          cases h
        · have := mem_dateErrors_cases h
          revert this
          decide
      · rcases mem_overlapErrors_cases h with ⟨l, _, heq⟩
        exact (overlapMsg_ne_fixed l).2.2.2.1 heq.symm

/-- **C3 (witness).** Scenario 2: `min_investment_usd = 100000`,
`max_cap_usd = 50000` yields an invalid result containing the exact
min/max error string. -/
theorem C3_witness :
    (validateComplianceSpec c3WitnessSpec).valid = false ∧
    minMaxMsg ∈ (validateComplianceSpec c3WitnessSpec).errors := by
  have h := C3_minmax_validation c3WitnessSpec c3WitnessTS
    rfl 100000 50000 rfl rfl
  exact h.1 (by decide) (by decide) (by decide)

/-! ## Claim C8 -/

/-- **C8.** When both lists are present: the computed overlap is exactly the
set of shared codes; if some code is shared, the validator's errors contain
the overlap message, and that message contains every shared code verbatim;
if no code is shared, no overlap-shaped error is reported at all. -/
theorem C8_overlap_validation (spec : ComplianceSpec) (ts : TokenSaleModule)
    (hts : spec.tokenSale = some ts) (bl wl : List String)
    (hbl : ts.blocklist = some bl) (hwl : ts.whitelist = some wl) :
    (∀ c, (c ∈ bl ∧ c ∈ wl) ↔ c ∈ bl.filter (fun c => wl.contains c)) ∧
    ((∃ c, c ∈ bl ∧ c ∈ wl) →
      overlapMsg (bl.filter (fun c => wl.contains c)) ∈
        (validateComplianceSpec spec).errors ∧
      ∀ c, c ∈ bl → c ∈ wl →
        ∃ pre post,
          (overlapMsg (bl.filter (fun c => wl.contains c))).data =
            pre ++ c.data ++ post) ∧
    ((¬ ∃ c, c ∈ bl ∧ c ∈ wl) →
      ∀ l, overlapMsg l ∉ (validateComplianceSpec spec).errors) := by
  have hiff : ∀ c, (c ∈ bl ∧ c ∈ wl) ↔ c ∈ bl.filter (fun c => wl.contains c) := by
    intro c
    simp [List.mem_filter]
  refine ⟨hiff, ?_, ?_⟩
  · rintro ⟨c, hc, hw⟩
    have hcf : c ∈ bl.filter (fun c => wl.contains c) := (hiff c).mp ⟨hc, hw⟩
    have hpos : 0 < (bl.filter (fun c => wl.contains c)).length :=
      List.length_pos.mpr (List.ne_nil_of_mem hcf)
    have hov : overlapErrors ts = [overlapMsg (bl.filter (fun c => wl.contains c))] := by
      unfold overlapErrors
      rw [hbl, hwl]
      exact if_pos hpos
    refine ⟨?_, ?_⟩
    · rw [validate_errors_eq hts, hov]
      simp
    · intro c' hc' hw'
      rcases mem_jsJoin ", " _ c' ((hiff c').mp ⟨hc', hw'⟩) with ⟨pre, post, hp⟩
      refine ⟨overlapPrefix.data ++ pre, post, ?_⟩
      unfold overlapMsg
      rw [String.data_append, hp]
      simp [List.append_assoc]
  · intro hno l hmem
    have hnil : bl.filter (fun c => wl.contains c) = [] := by
      rcases hfe : bl.filter (fun c => wl.contains c) with _ | ⟨x, xs⟩
      · rfl
      · exact absurd ⟨x, (hiff x).mpr (by rw [hfe]; exact List.mem_cons_self x xs)⟩ hno
    have hov : overlapErrors ts = [] := by
      unfold overlapErrors
      rw [hbl, hwl]
      have hlen : ¬ ((bl.filter (fun c => wl.contains c)).length > 0) := by
        rw [hnil]
        decide
      exact if_neg hlen
    rw [validate_errors_eq hts] at hmem
    rcases List.mem_append.mp hmem with h | h
    · rcases mem_basicErrors_cases h with h' | h' | h' <;>
        [exact (overlapMsg_ne_fixed l).1 h';
         exact (overlapMsg_ne_fixed l).2.1 h';
         exact (overlapMsg_ne_fixed l).2.2.1 h']
    · rcases List.mem_append.mp h with h | h
      · rcases List.mem_append.mp h with h | h
        · exact (overlapMsg_ne_fixed l).2.2.2.1 (mem_minMaxErrors_cases h)
        · exact (overlapMsg_ne_fixed l).2.2.2.2 (mem_dateErrors_cases h)
      · rw [hov] at h
        cases h

/-- **C8 (witness).** Scenario 3: `blocklist = ["US"]`, `whitelist = ["US"]`
produces the overlap error naming `US`. -/
theorem C8_witness :
    overlapMsg ["US"] ∈ (validateComplianceSpec c8WitnessSpec).errors := by
  have h := C8_overlap_validation c8WitnessSpec c8WitnessTS
    rfl ["US"] ["US"] rfl rfl
  exact (h.2.1 ⟨"US", by decide, by decide⟩).1

/-! ## Claim C10 -/

/-- **C10.** When both dates are present but at least one does not parse,
the `start >= end` comparison is false (`NaN` semantics), so no
date-ordering error is produced and the result is valid exactly when the
remaining checks produce nothing. -/
theorem C10_invalid_dates (spec : ComplianceSpec) (ts : TokenSaleModule)
    (hts : spec.tokenSale = some ts) (s e : String)
    (hs : ts.start_date = some s) (he : ts.end_date = some e)
    (hinv : parseISODate s = none ∨ parseISODate e = none) :
    dateErrors ts = [] ∧
    (validateComplianceSpec spec).errors =
      basicErrors spec ++ minMaxErrors ts ++ overlapErrors ts ∧
    ((validateComplianceSpec spec).valid = true ↔
      basicErrors spec = [] ∧ minMaxErrors ts = [] ∧ overlapErrors ts = []) := by
  have hde : dateErrors ts = [] := by
    unfold dateErrors
    rw [hs, he]
    split
    · rcases hinv with h | h
      · rw [show jsGetTime (some s) = none by simp [jsGetTime, h], jsGE_none_left]
        simp
      · rw [show jsGetTime (some e) = none by simp [jsGetTime, h], jsGE_none_right]
        simp
    · rfl
  refine ⟨hde, ?_, ?_⟩
  · rw [validate_errors_eq hts, hde]
    simp [List.append_assoc]
  · rw [validate_valid_iff, validate_errors_eq hts, hde]
    simp [List.append_eq_nil]

/-- **C10 (witness).** `start_date = "not-a-date"` with a valid end date:
the specification validates cleanly. -/
theorem C10_witness :
    parseISODate "not-a-date" = none ∧
    (validateComplianceSpec c10WitnessSpec).valid = true := by
  have h := C10_invalid_dates c10WitnessSpec c10WitnessTS
    rfl "not-a-date" "2024-01-01" rfl rfl (Or.inl (by decide))
  exact ⟨by decide, h.2.2.mpr ⟨rfl, rfl, rfl⟩⟩

/-! ## Claim C9 -/

/-- **C9 (counterexample).** With `accredited_only: true` and no
`kyc_threshold_usd`, the hybrid-rule count is 1, not 0: the accreditation
rule is counted even though no KYC threshold is present, contrary to the
claimed "if and only if". -/
theorem C9_counterexample :
    c9Spec.tokenSale.bind TokenSaleModule.kyc_threshold_usd = none ∧
    c9Spec.tokenSale.bind TokenSaleModule.accredited_only = some true ∧
    countHybridRules c9Spec = 1 ∧ countHybridRules c9Spec ≠ 0 := by
  refine ⟨rfl, rfl, rfl, by decide⟩

/-- **C9 (amended).** With `accredited_only` truthy, the audit manifest's
`hybrid_rules` count always includes the accreditation rule, independently
of the KYC threshold: it is 2 when `kyc_threshold_usd` is present and 1
when it is absent. -/
theorem C9_hybrid_rules (spec : ComplianceSpec) (ts : TokenSaleModule)
    (hts : spec.tokenSale = some ts) (hacc : ts.accredited_only = some true)
    (now : String) :
    (auditManifest spec now).enforcement_summary.hybrid_rules =
      if ts.kyc_threshold_usd.isSome then 2 else 1 := by
  rcases hk : ts.kyc_threshold_usd with _ | k <;>
    simp [auditManifest, countHybridRules, hts, hacc, hk, truthyBool]

/-- **C9 (amended, witness).** The manifest for the `accredited_only`-only
specification reports one hybrid rule. -/
theorem C9_witness :
    (auditManifest c9Spec "2024-01-01T00:00:00.000Z").enforcement_summary.hybrid_rules = 1 := by
  have h := C9_hybrid_rules c9Spec c9TS
    rfl rfl "2024-01-01T00:00:00.000Z"
  simpa using h

/-! ## Claim C2 -/

/-- **C2 (counterexample).** With `start_date`/`end_date` absent, the v3
generator splices `Math.floor(Date.now()/1000)` into the output: two calls
with the same specification but different clock readings produce different
text, so the generator is not a pure function of `(specification, options)`
in exactly the case the claim covers. -/
theorem C2_counterexample :
    c2TS.start_date = none ∧ c2TS.end_date = none ∧
    generateProviderAgnosticContract c2Spec 0 ≠
      generateProviderAgnosticContract c2Spec 8000 := by
  refine ⟨rfl, rfl, ?_⟩
  intro h
  have h0 : generateProviderAgnosticContract c2Spec 0 =
      .ok (v3Part0 ++ "0" ++ v3Part1 ++ "31536000" ++ v3Part2 ++ "5000000" ++
           v3Part3 ++ "undefined" ++ v3Part4 ++ "" ++
           (v3Part5a ++ v3KycCheckFragment ++ v3Part5b)) := rfl
  have h8 : generateProviderAgnosticContract c2Spec 8000 =
      .ok (v3Part0 ++ "8" ++ v3Part1 ++ "31536008" ++ v3Part2 ++ "5000000" ++
           v3Part3 ++ "undefined" ++ v3Part4 ++ "" ++
           (v3Part5a ++ v3KycCheckFragment ++ v3Part5b)) := rfl
  rw [h0, h8] at h
  have hs : (v3Part0 ++ "0" ++ v3Part1 ++ "31536000" ++ v3Part2 ++ "5000000" ++
      v3Part3 ++ "undefined" ++ v3Part4 ++ "" ++
      (v3Part5a ++ v3KycCheckFragment ++ v3Part5b)) =
      (v3Part0 ++ "8" ++ v3Part1 ++ "31536008" ++ v3Part2 ++ "5000000" ++
      v3Part3 ++ "undefined" ++ v3Part4 ++ "" ++
      (v3Part5a ++ v3KycCheckFragment ++ v3Part5b)) := by
    injection h
  have hd := congrArg String.data hs
  simp only [String.data_append, List.append_assoc, List.append_right_inj] at hd
  simp only [List.singleton_append] at hd
  injection hd with h1 _
  exact absurd h1 (by decide)

/-- **C2 (amended).** Each generator's output is a pure function of its
explicit inputs, except that the v3 (provider-agnostic) generator reads
the system clock to synthesize a default sale window; when both
`start_date` and `end_date` are present (truthy), the v3 output too is
independent of the clock, so two calls on byte-identical input yield
byte-identical text. -/
theorem C2_determinism (spec : ComplianceSpec) (ts : TokenSaleModule)
    (hts : spec.tokenSale = some ts)
    (hs : truthyStr ts.start_date = true) (he : truthyStr ts.end_date = true)
    (n₁ n₂ : Int) :
    generateProviderAgnosticContract spec n₁ =
      generateProviderAgnosticContract spec n₂ := by
  simp [generateProviderAgnosticContract, hts, v3Body, v3Start, v3End, hs, he]

/-- **C2 (witness).** Scenario 1's specification (both dates present):
outputs at two different clock readings coincide. -/
theorem C2_witness :
    generateProviderAgnosticContract c2WitnessSpec 0 =
      generateProviderAgnosticContract c2WitnessSpec 123456789000 :=
  C2_determinism c2WitnessSpec c2WitnessTS rfl (by decide) (by decide)
    0 123456789000

/-! ## Claim C5 -/

/-- **C5.** The cap check of the emitted v1 Solidity contract and of the
emitted Solana program refuses exactly when `cumulative + new > cap`
(strict, so exactly reaching the cap is allowed), and both generated
sources contain the corresponding comparison text verbatim. -/
theorem C5_cap_strictness :
    (∀ (p : GuardrailParams) (st : V1State) (t : Int) (contributor : String)
        (amt : Nat) (cc : String) (kyc : Bool),
        t ≥ p.saleStartTime ∧ t ≤ p.saleEndTime →
        p.blockedCountries.contains cc = false →
        (v1ValidateContribution p st t contributor amt cc kyc =
            (false, "Exceeds sale cap") ↔
          st.totalRaisedUSD + amt > p.maxCapUSD)) ∧
    (∀ (g : SolanaGuardrail) (contributorTotal : Nat) (time : Nat)
        (amt : Nat) (cc : String) (kyc : Bool),
        time ≥ g.sale_start_time ∧ time ≤ g.sale_end_time →
        g.blocked_countries.contains cc = false →
        (solanaValidateContribution g contributorTotal time amt cc kyc =
            .error .ExceedsCap ↔
          g.total_raised_usd + amt > g.max_cap_usd)) ∧
    (∀ (spec : ComplianceSpec) (ts : TokenSaleModule) (bl : List String),
        spec.tokenSale = some ts → ts.blocklist = some bl →
        (∃ out pre post, generateSolidityContract spec = .ok out ∧
            out.data = pre ++ v1CapCheckFragment.data ++ post) ∧
        (∃ out pre post, generateSolanaProgram spec = .ok out ∧
            out.data = pre ++ slCapCheckFragment.data ++ post)) := by
  refine ⟨?_, ?_, ?_⟩
  · intro p st t contributor amt cc kyc hact hcc
    unfold v1ValidateContribution
    rw [if_neg (not_not_intro hact), hcc]
    simp only [Bool.false_eq_true, if_false]
    by_cases hcap : st.totalRaisedUSD + amt > p.maxCapUSD
    · simp [hcap]
    · simp only [hcap, if_false, iff_false]
      split
      · intro hcontra
        have := (Prod.mk.injEq _ _ _ _).mp hcontra
        exact absurd this.2 (by decide)
      · intro hcontra
        have := (Prod.mk.injEq _ _ _ _).mp hcontra
        exact absurd this.1 (by decide)
  · intro g contributorTotal time amt cc kyc hact hcc
    unfold solanaValidateContribution
    rw [if_neg (not_not_intro hact), hcc]
    simp only [Bool.false_eq_true, if_false]
    by_cases hcap : g.total_raised_usd + amt ≤ g.max_cap_usd
    · rw [if_neg (not_not_intro hcap)]
      constructor
      · intro hcontra
        split at hcontra <;> simp_all
      · intro hgt
        omega
    · rw [if_pos hcap]
      simp
      omega
  · intro spec ts bl hts hbl
    constructor
    · refine ⟨v1Body ts bl, ?_, ?_, ?_, ?_⟩
      · exact (v1Part0 ++ spliceNum (dateEpochSeconds ts.start_date) ++
          v1Part1 ++ spliceNum (dateEpochSeconds ts.end_date) ++
          v1Part2 ++ spliceNat ts.max_cap_usd ++ v1Part3 ++
          spliceNat ts.kyc_threshold_usd ++ v1Part4 ++ blocklistEntries bl ++
          v1Part5a).data
      · exact v1Part5b.data
      · simp [generateSolidityContract, hts, hbl]
      · simp [v1Body, String.data_append, List.append_assoc]
    · refine ⟨slBody ts bl, ?_, ?_, ?_, ?_⟩
      · exact (slPart0 ++ spliceNum (dateEpochSeconds ts.start_date) ++
          slPart1 ++ spliceNum (dateEpochSeconds ts.end_date) ++
          slPart2 ++ spliceNat ts.max_cap_usd ++ slPart3 ++
          spliceNat ts.kyc_threshold_usd ++ slPart4 ++ blocklistArray bl ++
          slPart5a).data
      · exact slPart5b.data
      · simp [generateSolanaProgram, hts, hbl]
      · simp [slBody, String.data_append, List.append_assoc]

/-- **C5 (witness).** A contribution that exactly reaches the cap is
allowed, one dollar more is refused, in both emitted semantics; and the
scenario-1 specification's generated sources contain the comparison
fragments. -/
theorem C5_witness :
    (v1ValidateContribution c4Params c4V1State 50 "bob" (5000000 - 600) "DE" true =
        (false, "Exceeds sale cap") ↔ 600 + (5000000 - 600) > 5000000) ∧
    (solanaValidateContribution c4SolanaGuardrail 0 50 (5000000 - 600 + 1) "DE" true =
        .error .ExceedsCap ↔ 600 + (5000000 - 600 + 1) > 5000000) ∧
    (∃ out pre post, generateSolidityContract c2WitnessSpec = .ok out ∧
        out.data = pre ++ v1CapCheckFragment.data ++ post) := by
  have h := C5_cap_strictness
  refine ⟨h.1 c4Params c4V1State 50 "bob" (5000000 - 600) "DE" true
      (by constructor <;> decide) (by decide),
    h.2.1 c4SolanaGuardrail 0 50 (5000000 - 600 + 1) "DE" true
      (by constructor <;> decide) (by decide),
    (h.2.2 c2WitnessSpec c2WitnessTS ["US", "CN", "IR"] rfl rfl).1⟩

/-! ## Claim C6 -/

/-- **C6 (counterexample).** A `token_sale` module with every optional
field absent: the v1 Solidity generator and the Solana generator both
throw a `TypeError` on the missing blocklist instead of succeeding. -/
theorem C6_counterexample :
    c6Spec.tokenSale = some c6TS ∧ c6TS.blocklist = none ∧
    generateSolidityContract c6Spec =
      .error "TypeError: Cannot read properties of undefined (reading 'map')" ∧
    generateSolanaProgram c6Spec =
      .error "TypeError: Cannot read properties of undefined (reading 'map')" :=
  ⟨rfl, rfl, rfl, rfl⟩

/-- **C6 (amended).** Only the v3 generator tolerates every subset of
absent optional fields: it always succeeds, synthesizing a clock-based
default sale window for missing dates and an empty blocklist rendering;
but a missing `max_cap_usd`/`kyc_threshold_usd` is spliced as the literal
`undefined` (an invalid value, with no documented comment). The v1
Solidity and Solana generators throw a `TypeError` whenever the blocklist
alone is absent. -/
theorem C6_missing_fields (spec : ComplianceSpec) (ts : TokenSaleModule)
    (hts : spec.tokenSale = some ts) :
    (∀ nowMs : Int, ∃ out,
        generateProviderAgnosticContract spec nowMs = .ok out) ∧
    (ts.blocklist = none →
      generateSolidityContract spec =
        .error "TypeError: Cannot read properties of undefined (reading 'map')" ∧
      generateSolanaProgram spec =
        .error "TypeError: Cannot read properties of undefined (reading 'map')") ∧
    (∀ nowMs : Int,
      generateProviderAgnosticContract c6Spec nowMs =
        .ok (v3Part0 ++ toString (Int.fdiv nowMs 1000) ++ v3Part1 ++
             toString (Int.fdiv nowMs 1000 + 365 * 24 * 60 * 60) ++ v3Part2 ++
             "undefined" ++ v3Part3 ++ "undefined" ++ v3Part4 ++ "" ++
             (v3Part5a ++ v3KycCheckFragment ++ v3Part5b))) ∧
    (ts.max_cap_usd = none → ∀ nowMs : Int,
      ∃ out pre post, generateProviderAgnosticContract spec nowMs = .ok out ∧
        out.data = pre ++ ("maxCapUSD = undefined;" : String).data ++ post) := by
  refine ⟨?_, ?_, ?_, ?_⟩
  · intro nowMs
    exact ⟨v3Body ts nowMs, by simp [generateProviderAgnosticContract, hts]⟩
  · intro hbl
    refine ⟨?_, ?_⟩
    · simp [generateSolidityContract, hts, hbl]
    · simp [generateSolanaProgram, hts, hbl]
  · intro nowMs
    rfl
  · intro hcap nowMs
    refine ⟨v3Body ts nowMs, ?_, ?_, ?_, ?_⟩
    · exact (v3Part0 ++ spliceNum (v3Start ts nowMs) ++ v3Part1 ++
        spliceNum (v3End ts nowMs) ++ ";\n        ").data
    · exact (("\n        kycThresholdUSD = " : String) ++
        spliceNat ts.kyc_threshold_usd ++ v3Part4 ++
        blocklistEntries (ts.blocklist.getD []) ++
        (v3Part5a ++ v3KycCheckFragment ++ v3Part5b)).data
    · simp [generateProviderAgnosticContract, hts]
    · have h2 : v3Part2 = ";\n        " ++ "maxCapUSD = " := by decide
      have h3 : v3Part3 = ";" ++ "\n        kycThresholdUSD = " := by decide
      have hu : ("maxCapUSD = undefined;" : String) =
          "maxCapUSD = " ++ "undefined" ++ ";" := by decide
      rw [hu]
      simp [v3Body, hcap, spliceNat, h2, h3, String.data_append,
        List.append_assoc]

/-- **C6 (witness).** The all-fields-absent module: v3 succeeds (and
splices `undefined` for the cap) while v1 and Solana throw. -/
theorem C6_witness :
    (∃ out, generateProviderAgnosticContract c6Spec 0 = .ok out) ∧
    generateSolidityContract c6Spec =
      .error "TypeError: Cannot read properties of undefined (reading 'map')" ∧
    (∃ out pre post, generateProviderAgnosticContract c6Spec 0 = .ok out ∧
        out.data = pre ++ ("maxCapUSD = undefined;" : String).data ++ post) := by
  have h := C6_missing_fields c6Spec c6TS rfl
  exact ⟨h.1 0, (h.2.1 rfl).1, h.2.2.2 rfl 0⟩

/-! ## Claim C4 -/

/-- **C4.** The claim holds for the emitted v2 and Solana gates (both
compare `prior + new` against the threshold) but the emitted v3
(provider-agnostic, oracle-integrated) gate compares only the single
transaction amount: with threshold 1000, a participant holding 600 of
recorded contributions who adds 600 more (cumulative 1200 ≥ 1000, not
verified) is accepted by v3, while the v2 and Solana gates refuse;
indeed the v3 gate can never fire when the single amount is below the
threshold, whatever the prior contributions. The generated policy
document itself states the cumulative rule, and the emitted v3 source
contains the bare-amount comparison verbatim. -/
theorem C4_kyc_gate :
    600 + 600 ≥ c4Params.kycThresholdUSD ∧
    (∃ st', v3ProcessContribution c4Params c4V3State 50 "alice" 600 "DE" =
        .ok st') ∧
    v2ValidateContribution c4Params c4V1State c4V2Verifications 50 "alice"
        600 "DE" = (false, "Verification required") ∧
    solanaValidateContribution c4SolanaGuardrail (c4PriorContrib "alice") 50
        600 "DE" false = .error .KycRequired ∧
    (∀ (p : GuardrailParams) (st : V3State) (t : Int) (a : String)
        (amt : Nat) (cc : String),
      amt < p.kycThresholdUSD →
      v3ProcessContribution p st t a amt cc ≠
        .error "KYC verification required for this amount") ∧
    (∀ (spec : ComplianceSpec) (ts : TokenSaleModule) (bl : List String)
        (nowIso : String),
      spec.tokenSale = some ts → ts.blocklist = some bl →
      spec.metadata.isSome = true →
      ∃ out pre post, generatePolicyDocument spec nowIso = .ok out ∧
        out.data = pre ++ polKycSentence.data ++ post) ∧
    (∀ (spec : ComplianceSpec) (ts : TokenSaleModule) (nowMs : Int),
      spec.tokenSale = some ts →
      ∃ out pre post,
        generateProviderAgnosticContract spec nowMs = .ok out ∧
        out.data = pre ++ v3KycCheckFragment.data ++ post) := by
  refine ⟨by decide, ⟨_, rfl⟩, rfl, rfl, ?_, ?_, ?_⟩
  · intro p st t a amt cc hlt h
    unfold v3ProcessContribution at h
    split at h
    · exact absurd (Except.error.inj h) (by decide)
    · split at h
      · exact absurd (Except.error.inj h) (by decide)
      · split at h
        · exact absurd (Except.error.inj h) (by decide)
        · split at h
          next hcond => exact absurd hcond.1 (by omega)
          next =>
            split at h
            · exact absurd (Except.error.inj h) (by decide)
            · cases h
  · intro spec ts bl nowIso hts hbl hmd
    rcases hmd' : spec.metadata with _ | md
    · rw [hmd'] at hmd
      cases hmd
    · refine ⟨polBody md spec.version ts bl nowIso, ?_, ?_, ?_, ?_⟩
      · exact (polPart0 ++ spliceStr md.project_name ++ polPart1 ++
          spliceStr md.description ++ polPart2 ++ spliceStr spec.version ++
          polPart3 ++ spliceStr md.created_date ++ polPart4 ++ nowIso ++
          polPart5 ++ spliceStr ts.start_date ++ polPart6 ++
          spliceStr ts.end_date ++ polPart7 ++ formatUSD ts.max_cap_usd ++
          polPart8 ++ jsJoin ", " bl ++ polPart9 ++
          formatUSD ts.kyc_threshold_usd ++ polPart10a).data
      · exact polPart10b.data
      · simp [generatePolicyDocument, hts, hbl, hmd']
      · simp [polBody, String.data_append, List.append_assoc]
  · intro spec ts nowMs hts
    refine ⟨v3Body ts nowMs, ?_, ?_, ?_, ?_⟩
    · exact (v3Part0 ++ spliceNum (v3Start ts nowMs) ++ v3Part1 ++
        spliceNum (v3End ts nowMs) ++ v3Part2 ++ spliceNat ts.max_cap_usd ++
        v3Part3 ++ spliceNat ts.kyc_threshold_usd ++ v3Part4 ++
        blocklistEntries (ts.blocklist.getD []) ++ v3Part5a).data
    · exact v3Part5b.data
    · simp [generateProviderAgnosticContract, hts]
    · simp [v3Body, String.data_append, List.append_assoc]

/-- **C4 (witness).** The hypotheses of the generic conjuncts discharged at
the scenario-1 specification and at a small below-threshold amount. -/
theorem C4_witness :
    v3ProcessContribution c4Params c4V3State 50 "alice" 999 "DE" ≠
      .error "KYC verification required for this amount" ∧
    (∃ out pre post,
        generatePolicyDocument c2WitnessSpec "T" = .ok out ∧
        out.data = pre ++ polKycSentence.data ++ post) ∧
    (∃ out pre post,
        generateProviderAgnosticContract c2WitnessSpec 0 = .ok out ∧
        out.data = pre ++ v3KycCheckFragment.data ++ post) := by
  have h := C4_kyc_gate
  exact ⟨h.2.2.2.2.1 c4Params c4V3State 50 "alice" 999 "DE" (by decide),
    h.2.2.2.2.2.1 c2WitnessSpec c2WitnessTS ["US", "CN", "IR"] "T" rfl rfl rfl,
    h.2.2.2.2.2.2 c2WitnessSpec c2WitnessTS 0 rfl⟩

/-! ## Claim C1 -/

/-- A specification that validates cleanly has its metadata present. -/
theorem valid_metadata {spec : ComplianceSpec}
    (h : (validateComplianceSpec spec).valid = true) :
    ∃ md, spec.metadata = some md := by
  rcases hmd : spec.metadata with _ | md
  · exfalso
    have herr := (validate_valid_iff spec).mp h
    have hmem : "Missing metadata" ∈ (validateComplianceSpec spec).errors := by
      simp [validateComplianceSpec, basicErrors, hmd]
    rw [herr] at hmem
    cases hmem
  · exact ⟨md, rfl⟩

/-- **C1 (amended).** An invalid specification makes `compile` throw one
error listing all accumulated validation errors, without invoking any
generator (the result is the same for every generator set) and without
returning any partial bundle; a cleanly-validating specification whose
`token_sale` module is present with a blocklist compiles to a full bundle
of one contract, the two documents and the metadata. (Without `token_sale`
— or, for the Solana target and the policy generator, without a blocklist
— a cleanly-validating specification makes a generator throw instead, so
the claim's unconditional success half fails.) -/
theorem C1_compile (gens gens' : GeneratorSet) (defBc : Blockchain)
    (spec : ComplianceSpec) (optBc : Option Blockchain) (nowMs : Int)
    (nowIso : String) :
    ((validateComplianceSpec spec).valid = false →
      compile gens defBc spec optBc nowIso =
        .error ("Invalid compliance specification: " ++
          jsJoin ", " (validateComplianceSpec spec).errors) ∧
      compile gens defBc spec optBc nowIso =
        compile gens' defBc spec optBc nowIso) ∧
    ((validateComplianceSpec spec).valid = true →
      ∀ ts bl, spec.tokenSale = some ts → ts.blocklist = some bl →
      ∃ contractCode policyDoc auditDoc,
        compile (realGenerators nowMs nowIso) defBc spec optBc nowIso =
          .ok { contracts :=
                  [("Guardrail." ++ fileExtension (optBc.getD defBc),
                    contractCode)]
                documents :=
                  [("policy.md", policyDoc), ("audit.json", auditDoc)]
                metadata :=
                  { jurisdiction :=
                      spec.metadata.bind ComplianceMetadata.jurisdiction
                    blockchain := optBc.getD defBc
                    timestamp := nowIso } }) := by
  constructor
  · intro hinv
    constructor
    · simp [compile, hinv]
    · simp [compile, hinv]
  · intro hval ts bl hts hbl
    obtain ⟨md, hmd⟩ := valid_metadata hval
    have hpol : generatePolicyDocument spec nowIso =
        .ok (polBody md spec.version ts bl nowIso) := by
      simp [generatePolicyDocument, hts, hbl, hmd]
    have haud : auditGenerate spec nowIso =
        .ok (auditSerialize (auditManifest spec nowIso)) := by
      simp [auditGenerate, hmd]
    rcases hbc : optBc.getD defBc with _ | _
    · refine ⟨v3Body ts nowMs, polBody md spec.version ts bl nowIso,
        auditSerialize (auditManifest spec nowIso), ?_⟩
      have hcon : generateProviderAgnosticContract spec nowMs =
          .ok (v3Body ts nowMs) := by
        simp [generateProviderAgnosticContract, hts]
      simp [compile, hval, hbc, hcon, hpol, haud, realGenerators]
    · refine ⟨slBody ts bl, polBody md spec.version ts bl nowIso,
        auditSerialize (auditManifest spec nowIso), ?_⟩
      have hcon : generateSolanaProgram spec = .ok (slBody ts bl) := by
        simp [generateSolanaProgram, hts, hbl]
      simp [compile, hval, hbc, hcon, hpol, haud, realGenerators]

/-- **C1 (counterexample).** A specification that validates cleanly but has
no `token_sale` module: `compile` throws the generator's missing-module
error instead of returning a bundle, for both targets. -/
theorem C1_counterexample :
    (validateComplianceSpec c1CounterSpec).valid = true ∧
    c1CounterSpec.tokenSale = none ∧
    compile (realGenerators 0 "T") .solana c1CounterSpec none "T" =
      .error "No token_sale module found in compliance data" ∧
    compile (realGenerators 0 "T") .solana c1CounterSpec (some .ethereum) "T" =
      .error "No token_sale module found in compliance data" := by
  refine ⟨by decide, rfl, by rfl, by rfl⟩

/-- **C1 (witness).** Scenario 1's specification validates cleanly and
compiles to a full bundle on the invalid side's exact error shape and the
valid side's bundle shape. -/
theorem C1_witness :
    (compile (realGenerators 0 "T") .solana c3WitnessSpec none "T" =
      .error ("Invalid compliance specification: " ++
        jsJoin ", " (validateComplianceSpec c3WitnessSpec).errors)) ∧
    (∃ contractCode policyDoc auditDoc,
      compile (realGenerators 0 "T") .solana c2WitnessSpec none "T" =
        .ok { contracts := [("Guardrail.rs", contractCode)]
              documents := [("policy.md", policyDoc), ("audit.json", auditDoc)]
              metadata := { jurisdiction := none, blockchain := .solana
                            timestamp := "T" } }) := by
  constructor
  · exact ((C1_compile (realGenerators 0 "T") (realGenerators 0 "T") .solana
      c3WitnessSpec none 0 "T").1 (by decide)).1
  · exact (C1_compile (realGenerators 0 "T") (realGenerators 0 "T") .solana
      c2WitnessSpec none 0 "T").2 (by decide) c2WitnessTS ["US", "CN", "IR"]
      rfl rfl

/-! ## Lemmas about the heap model -/

theorem span_le :
    ∀ (fuel : Nat),
      (∀ (st : Store) v lo hi, spanB st fuel v lo hi = true → lo ≤ hi) ∧
      (∀ (st : Store) l lo hi, spanFieldsB st fuel l lo hi = true → lo ≤ hi) ∧
      (∀ (st : Store) l lo hi, spanElemsB st fuel l lo hi = true → lo ≤ hi) := by
  intro fuel
  induction fuel with
  | zero =>
    refine ⟨?_, ?_, ?_⟩
    · intro st v lo hi h
      cases v with
      | prim p => simp [spanB] at h; omega
      | ref a => simp [spanB] at h
    · intro st l lo hi h
      induction l generalizing lo with
      | nil => simp [spanFieldsB] at h; omega
      | cons kv rest ih =>
        obtain ⟨k, v⟩ := kv
        simp [spanFieldsB] at h
        cases v with
        | prim p =>
          have := ih (valEnd (.prim p) lo) h.2
          simp [valEnd] at this ⊢
          omega
        | ref a => simp [spanB] at h
    · intro st l lo hi h
      induction l generalizing lo with
      | nil => simp [spanElemsB] at h; omega
      | cons v rest ih =>
        simp [spanElemsB] at h
        cases v with
        | prim p =>
          have := ih (valEnd (.prim p) lo) h.2
          simp [valEnd] at this ⊢
          omega
        | ref a => simp [spanB] at h
  | succ n ihn =>
    have hv : ∀ (st : Store) v lo hi, spanB st (n + 1) v lo hi = true → lo ≤ hi := by
      intro st v lo hi h
      cases v with
      | prim p => simp [spanB] at h; omega
      | ref a => simp [spanB] at h; omega
    refine ⟨hv, ?_, ?_⟩
    · intro st l lo hi h
      induction l generalizing lo with
      | nil => simp [spanFieldsB] at h; omega
      | cons kv rest ih =>
        obtain ⟨k, v⟩ := kv
        simp [spanFieldsB] at h
        have h1 := hv st v lo (valEnd v lo) h.1
        have h2 := ih (valEnd v lo) h.2
        omega
    · intro st l lo hi h
      induction l generalizing lo with
      | nil => simp [spanElemsB] at h; omega
      | cons v rest ih =>
        simp [spanElemsB] at h
        have h1 := hv st v lo (valEnd v lo) h.1
        have h2 := ih (valEnd v lo) h.2
        omega

theorem valIn_mono {S T : Nat → Prop} (h : ∀ a, S a → T a) :
    ∀ v, ValIn S v → ValIn T v := by
  intro v hv
  cases v with
  | prim p => trivial
  | ref a => exact h a hv

theorem decodeFieldsF_congr {f g : JVal → Option Json}
    (l : List (String × JVal)) (h : ∀ kv ∈ l, f kv.2 = g kv.2) :
    decodeFieldsF f l = decodeFieldsF g l := by
  induction l with
  | nil => rfl
  | cons kv rest ih =>
    obtain ⟨k, v⟩ := kv
    simp only [decodeFieldsF]
    rw [h (k, v) (by simp), ih (fun kv hkv => h kv (by simp [hkv]))]

theorem decodeElemsF_congr {f g : JVal → Option Json}
    (l : List JVal) (h : ∀ v ∈ l, f v = g v) :
    decodeElemsF f l = decodeElemsF g l := by
  induction l with
  | nil => rfl
  | cons v rest ih =>
    simp only [decodeElemsF]
    rw [h v (by simp), ih (fun v hv => h v (by simp [hv]))]

theorem decodeFieldsF_mono {f g : JVal → Option Json}
    (hp : ∀ v j, f v = some j → g v = some j) :
    ∀ (l : List (String × JVal)) r,
      decodeFieldsF f l = some r → decodeFieldsF g l = some r := by
  intro l
  induction l with
  | nil => intro r h; exact h
  | cons kv rest ih =>
    obtain ⟨k, v⟩ := kv
    intro r h
    simp only [decodeFieldsF] at h ⊢
    rcases hf : f v with _ | j
    · rw [hf] at h; cases h
    · rcases hr : decodeFieldsF f rest with _ | jr
      · rw [hf, hr] at h; cases h
      · rw [hf, hr] at h
        rw [hp v j hf, ih jr hr]
        exact h

theorem decodeElemsF_mono {f g : JVal → Option Json}
    (hp : ∀ v j, f v = some j → g v = some j) :
    ∀ (l : List JVal) r,
      decodeElemsF f l = some r → decodeElemsF g l = some r := by
  intro l
  induction l with
  | nil => intro r h; exact h
  | cons v rest ih =>
    intro r h
    simp only [decodeElemsF] at h ⊢
    rcases hf : f v with _ | j
    · rw [hf] at h; cases h
    · rcases hr : decodeElemsF f rest with _ | jr
      · rw [hf, hr] at h; cases h
      · rw [hf, hr] at h
        rw [hp v j hf, ih jr hr]
        exact h

theorem decode_mono (st : Store) :
    ∀ fuel v j, decodeVal st fuel v = some j →
      decodeVal st (fuel + 1) v = some j := by
  intro fuel
  induction fuel with
  | zero =>
    intro v j h
    cases v with
    | prim p => exact h
    | ref a => cases h
  | succ n ih =>
    intro v j h
    cases v with
    | prim p => exact h
    | ref a =>
      simp only [decodeVal] at h ⊢
      cases hnode : st.get? a with
      | none => rw [hnode] at h; cases h
      | some node =>
        rw [hnode] at h
        cases node with
        | obj fields =>
          simp only [Option.map_eq_some'] at h ⊢
          obtain ⟨jf, hjf, hobj⟩ := h
          exact ⟨jf, decodeFieldsF_mono ih fields jf hjf, hobj⟩
        | arr elems =>
          simp only [Option.map_eq_some'] at h ⊢
          obtain ⟨je, hje, harr⟩ := h
          exact ⟨je, decodeElemsF_mono ih elems je hje, harr⟩

theorem decode_mono_le (st : Store) {fuel fuel' : Nat} (hle : fuel ≤ fuel') :
    ∀ v j, decodeVal st fuel v = some j → decodeVal st fuel' v = some j := by
  induction hle with
  | refl => exact fun v j h => h
  | step _ ih => exact fun v j h => decode_mono st _ v j (ih v j h)

theorem decode_agree (S : Nat → Prop) :
    ∀ (fuel : Nat) (st st' : Store),
      (∀ i, S i → st'.get? i = st.get? i) →
      (∀ i, S i → ∀ node, st.get? i = some node → NodeIn S node) →
      ∀ v, ValIn S v → decodeVal st' fuel v = decodeVal st fuel v := by
  intro fuel
  induction fuel with
  | zero =>
    intro st st' _ _ v _
    cases v with
    | prim p => rfl
    | ref a => rfl
  | succ n ih =>
    intro st st' hag hcl v hv
    cases v with
    | prim p => rfl
    | ref a =>
      have hS : S a := hv
      simp only [decodeVal]
      rw [hag a hS]
      cases hnode : st.get? a with
      | none => rfl
      | some node =>
        have hn := hcl a hS node hnode
        cases node with
        | obj fields =>
          simp only []
          rw [decodeFieldsF_congr fields
            (fun kv hkv => ih st st' hag hcl kv.2 (hn kv hkv))]
        | arr elems =>
          simp only []
          rw [decodeElemsF_congr elems
            (fun v hv' => ih st st' hag hcl v (hn v hv'))]

theorem span_mono :
    ∀ (fuel : Nat) (st : Store),
      (∀ v lo hi, spanB st fuel v lo hi = true → spanB st (fuel + 1) v lo hi = true) ∧
      (∀ l lo hi, spanFieldsB st fuel l lo hi = true →
        spanFieldsB st (fuel + 1) l lo hi = true) ∧
      (∀ l lo hi, spanElemsB st fuel l lo hi = true →
        spanElemsB st (fuel + 1) l lo hi = true) := by
  intro fuel
  induction fuel with
  | zero =>
    intro st
    have hv : ∀ v lo hi, spanB st 0 v lo hi = true → spanB st 1 v lo hi = true := by
      intro v lo hi h
      cases v with
      | prim p => simp [spanB] at h ⊢; exact h
      | ref a => simp [spanB] at h
    refine ⟨hv, ?_, ?_⟩
    · intro l
      induction l with
      | nil =>
        intro lo hi h
        simp_all [spanFieldsB, spanElemsB]
      | cons kv rest ih =>
        intro lo hi h
        obtain ⟨k, v⟩ := kv
        simp only [spanFieldsB, Bool.and_eq_true] at h ⊢
        exact ⟨hv v lo _ h.1, ih _ hi h.2⟩
    · intro l
      induction l with
      | nil =>
        intro lo hi h
        simp_all [spanFieldsB, spanElemsB]
      | cons v rest ih =>
        intro lo hi h
        simp only [spanElemsB, Bool.and_eq_true] at h ⊢
        exact ⟨hv v lo _ h.1, ih _ hi h.2⟩
  | succ n ihn =>
    intro st
    have hv : ∀ v lo hi, spanB st (n + 1) v lo hi = true →
        spanB st (n + 2) v lo hi = true := by
      intro v lo hi h
      cases v with
      | prim p => simp [spanB] at h ⊢; exact h
      | ref a =>
        simp only [spanB, Bool.and_eq_true] at h ⊢
        refine ⟨h.1, ?_⟩
        have h2 := h.2
        cases hnode : st.get? a with
        | none => rw [hnode] at h2; cases h2
        | some node =>
          rw [hnode] at h2
          cases node with
          | obj fields => exact (ihn st).2.1 fields lo a h2
          | arr elems => exact (ihn st).2.2 elems lo a h2
    refine ⟨hv, ?_, ?_⟩
    · intro l
      induction l with
      | nil =>
        intro lo hi h
        simp_all [spanFieldsB, spanElemsB]
      | cons kv rest ih =>
        intro lo hi h
        obtain ⟨k, v⟩ := kv
        simp only [spanFieldsB, Bool.and_eq_true] at h ⊢
        exact ⟨hv v lo _ h.1, ih _ hi h.2⟩
    · intro l
      induction l with
      | nil =>
        intro lo hi h
        simp_all [spanFieldsB, spanElemsB]
      | cons v rest ih =>
        intro lo hi h
        simp only [spanElemsB, Bool.and_eq_true] at h ⊢
        exact ⟨hv v lo _ h.1, ih _ hi h.2⟩

theorem span_mono_le {st : Store} {fuel fuel' : Nat} (hle : fuel ≤ fuel') :
    ∀ v lo hi, spanB st fuel v lo hi = true → spanB st fuel' v lo hi = true := by
  induction hle with
  | refl => exact fun v lo hi h => h
  | step _ ih => exact fun v lo hi h => (span_mono _ st).1 v lo hi (ih v lo hi h)

theorem spanFields_mono_le {st : Store} {fuel fuel' : Nat} (hle : fuel ≤ fuel') :
    ∀ l lo hi, spanFieldsB st fuel l lo hi = true →
      spanFieldsB st fuel' l lo hi = true := by
  induction hle with
  | refl => exact fun l lo hi h => h
  | step _ ih => exact fun l lo hi h => (span_mono _ st).2.1 l lo hi (ih l lo hi h)

theorem spanElems_mono_le {st : Store} {fuel fuel' : Nat} (hle : fuel ≤ fuel') :
    ∀ l lo hi, spanElemsB st fuel l lo hi = true →
      spanElemsB st fuel' l lo hi = true := by
  induction hle with
  | refl => exact fun l lo hi h => h
  | step _ ih => exact fun l lo hi h => (span_mono _ st).2.2 l lo hi (ih l lo hi h)

theorem nodeIn_mono {S T : Nat → Prop} (h : ∀ a, S a → T a) :
    ∀ node, NodeIn S node → NodeIn T node := by
  intro node hn
  cases node with
  | obj fields => exact fun kv hkv => valIn_mono h kv.2 (hn kv hkv)
  | arr elems => exact fun v hv => valIn_mono h v (hn v hv)

/-- The root of a span lies in its region. -/
theorem span_bounds {st : Store} {fuel : Nat} {v lo hi}
    (h : spanB st fuel v lo hi = true) :
    ValIn (fun a => lo ≤ a ∧ a < hi) v := by
  cases v with
  | prim p => trivial
  | ref a =>
    cases fuel with
    | zero => simp [spanB] at h
    | succ n =>
      simp only [spanB, Bool.and_eq_true, beq_iff_eq, decide_eq_true_eq] at h
      exact ⟨h.1.2, by omega⟩

/-- Every field value of a span's field list lies in the list's region. -/
theorem span_fields_vals {st : Store} {fuel : Nat} :
    ∀ {l lo hi}, spanFieldsB st fuel l lo hi = true →
      ∀ kv ∈ l, ValIn (fun x => lo ≤ x ∧ x < hi) kv.2 := by
  intro l
  induction l with
  | nil => intro lo hi _ kv hkv; cases hkv
  | cons kv₀ rest ih =>
    intro lo hi h kv hkv
    obtain ⟨k, v⟩ := kv₀
    simp only [spanFieldsB, Bool.and_eq_true] at h
    have h1 := h.1
    have h2 := h.2
    have hLoEnd : lo ≤ valEnd v lo := (span_le fuel).1 st v lo _ h1
    have hEndHi : valEnd v lo ≤ hi := (span_le fuel).2.1 st rest _ hi h2
    rcases List.mem_cons.mp hkv with rfl | hmem
    · exact valIn_mono (fun a ha => ⟨ha.1, by omega⟩) _ (span_bounds h1)
    · exact valIn_mono (fun a ha => ⟨by omega, ha.2⟩) _ (ih h2 kv hmem)

theorem span_elems_vals {st : Store} {fuel : Nat} :
    ∀ {l lo hi}, spanElemsB st fuel l lo hi = true →
      ∀ v ∈ l, ValIn (fun x => lo ≤ x ∧ x < hi) v := by
  intro l
  induction l with
  | nil => intro lo hi _ v hv; cases hv
  | cons v₀ rest ih =>
    intro lo hi h v hv
    simp only [spanElemsB, Bool.and_eq_true] at h
    have h1 := h.1
    have h2 := h.2
    have hLoEnd : lo ≤ valEnd v₀ lo := (span_le fuel).1 st v₀ lo _ h1
    have hEndHi : valEnd v₀ lo ≤ hi := (span_le fuel).2.2 st rest _ hi h2
    rcases List.mem_cons.mp hv with rfl | hmem
    · exact valIn_mono (fun a ha => ⟨ha.1, by omega⟩) _ (span_bounds h1)
    · exact valIn_mono (fun a ha => ⟨by omega, ha.2⟩) _ (ih h2 v hmem)

/-- Every node inside a span's region only references that region. -/
theorem span_closed :
    ∀ (fuel : Nat),
      (∀ (st : Store) v lo hi, spanB st fuel v lo hi = true →
        ∀ i, lo ≤ i → i < hi → ∀ node, st.get? i = some node →
          NodeIn (fun a => lo ≤ a ∧ a < hi) node) ∧
      (∀ (st : Store) l lo hi, spanFieldsB st fuel l lo hi = true →
        ∀ i, lo ≤ i → i < hi → ∀ node, st.get? i = some node →
          NodeIn (fun a => lo ≤ a ∧ a < hi) node) ∧
      (∀ (st : Store) l lo hi, spanElemsB st fuel l lo hi = true →
        ∀ i, lo ≤ i → i < hi → ∀ node, st.get? i = some node →
          NodeIn (fun a => lo ≤ a ∧ a < hi) node) := by
  intro fuel
  induction fuel with
  | zero =>
    have hv : ∀ (st : Store) v lo hi, spanB st 0 v lo hi = true →
        ∀ i, lo ≤ i → i < hi → ∀ node, st.get? i = some node →
          NodeIn (fun a => lo ≤ a ∧ a < hi) node := by
      intro st v lo hi h i hlo hhi node _
      cases v with
      | prim p => simp [spanB] at h; omega
      | ref a => simp [spanB] at h
    refine ⟨hv, ?_, ?_⟩
    · intro st l
      induction l with
      | nil =>
        intro lo hi h i hlo hhi node _
        simp [spanFieldsB] at h
        omega
      | cons kv rest ih =>
        intro lo hi h i hlo hhi node hnode
        obtain ⟨k, v⟩ := kv
        simp only [spanFieldsB, Bool.and_eq_true] at h
        have hLoEnd : lo ≤ valEnd v lo := (span_le 0).1 st v lo _ h.1
        have hEndHi : valEnd v lo ≤ hi := (span_le 0).2.1 st rest _ hi h.2
        by_cases hI : i < valEnd v lo
        · exact nodeIn_mono (fun a ha => ⟨ha.1, by omega⟩) node
            (hv st v lo _ h.1 i hlo hI node hnode)
        · exact nodeIn_mono (fun a ha => ⟨by omega, ha.2⟩) node
            (ih _ hi h.2 i (by omega) hhi node hnode)
    · intro st l
      induction l with
      | nil =>
        intro lo hi h i hlo hhi node _
        simp [spanElemsB] at h
        omega
      | cons v rest ih =>
        intro lo hi h i hlo hhi node hnode
        simp only [spanElemsB, Bool.and_eq_true] at h
        have hLoEnd : lo ≤ valEnd v lo := (span_le 0).1 st v lo _ h.1
        have hEndHi : valEnd v lo ≤ hi := (span_le 0).2.2 st rest _ hi h.2
        by_cases hI : i < valEnd v lo
        · exact nodeIn_mono (fun a ha => ⟨ha.1, by omega⟩) node
            (hv st v lo _ h.1 i hlo hI node hnode)
        · exact nodeIn_mono (fun a ha => ⟨by omega, ha.2⟩) node
            (ih _ hi h.2 i (by omega) hhi node hnode)
  | succ n ihn =>
    have hv : ∀ (st : Store) v lo hi, spanB st (n + 1) v lo hi = true →
        ∀ i, lo ≤ i → i < hi → ∀ node, st.get? i = some node →
          NodeIn (fun a => lo ≤ a ∧ a < hi) node := by
      intro st v lo hi h i hlo hhi node hnode
      cases v with
      | prim p => simp [spanB] at h; omega
      | ref a =>
        simp only [spanB, Bool.and_eq_true, beq_iff_eq, decide_eq_true_eq] at h
        obtain ⟨⟨hhi', hloa⟩, hmatch⟩ := h
        subst hhi'
        by_cases hia : i = a
        · subst hia
          cases hsn : st.get? i with
          | none => rw [hsn] at hmatch; cases hmatch
          | some node' =>
            rw [hsn] at hmatch
            rw [hsn] at hnode
            injection hnode with hnode'
            subst hnode'
            cases node' with
            | obj fields =>
              exact fun kv hkv =>
                valIn_mono (fun a ha => ⟨ha.1, by omega⟩) kv.2
                  (span_fields_vals hmatch kv hkv)
            | arr elems =>
              exact fun v hv' =>
                valIn_mono (fun a ha => ⟨ha.1, by omega⟩) v
                  (span_elems_vals hmatch v hv')
        · have hiA : i < a := by omega
          cases hsn : st.get? a with
          | none => rw [hsn] at hmatch; cases hmatch
          | some node' =>
            rw [hsn] at hmatch
            cases node' with
            | obj fields =>
              exact nodeIn_mono (fun x hx => ⟨hx.1, by omega⟩) node
                (ihn.2.1 st fields lo a hmatch i hlo hiA node hnode)
            | arr elems =>
              exact nodeIn_mono (fun x hx => ⟨hx.1, by omega⟩) node
                (ihn.2.2 st elems lo a hmatch i hlo hiA node hnode)
    refine ⟨hv, ?_, ?_⟩
    · intro st l
      induction l with
      | nil =>
        intro lo hi h i hlo hhi node _
        simp [spanFieldsB] at h
        omega
      | cons kv rest ih =>
        intro lo hi h i hlo hhi node hnode
        obtain ⟨k, v⟩ := kv
        simp only [spanFieldsB, Bool.and_eq_true] at h
        have hLoEnd : lo ≤ valEnd v lo := (span_le (n + 1)).1 st v lo _ h.1
        have hEndHi : valEnd v lo ≤ hi := (span_le (n + 1)).2.1 st rest _ hi h.2
        by_cases hI : i < valEnd v lo
        · exact nodeIn_mono (fun a ha => ⟨ha.1, by omega⟩) node
            (hv st v lo _ h.1 i hlo hI node hnode)
        · exact nodeIn_mono (fun a ha => ⟨by omega, ha.2⟩) node
            (ih _ hi h.2 i (by omega) hhi node hnode)
    · intro st l
      induction l with
      | nil =>
        intro lo hi h i hlo hhi node _
        simp [spanElemsB] at h
        omega
      | cons v rest ih =>
        intro lo hi h i hlo hhi node hnode
        simp only [spanElemsB, Bool.and_eq_true] at h
        have hLoEnd : lo ≤ valEnd v lo := (span_le (n + 1)).1 st v lo _ h.1
        have hEndHi : valEnd v lo ≤ hi := (span_le (n + 1)).2.2 st rest _ hi h.2
        by_cases hI : i < valEnd v lo
        · exact nodeIn_mono (fun a ha => ⟨ha.1, by omega⟩) node
            (hv st v lo _ h.1 i hlo hI node hnode)
        · exact nodeIn_mono (fun a ha => ⟨by omega, ha.2⟩) node
            (ih _ hi h.2 i (by omega) hhi node hnode)

/-- A span is preserved by any store that agrees on its region. -/
theorem span_agree :
    ∀ (fuel : Nat),
      (∀ (st st' : Store) v lo hi,
        (∀ i, lo ≤ i → i < hi → st'.get? i = st.get? i) →
        spanB st fuel v lo hi = true → spanB st' fuel v lo hi = true) ∧
      (∀ (st st' : Store) l lo hi,
        (∀ i, lo ≤ i → i < hi → st'.get? i = st.get? i) →
        spanFieldsB st fuel l lo hi = true → spanFieldsB st' fuel l lo hi = true) ∧
      (∀ (st st' : Store) l lo hi,
        (∀ i, lo ≤ i → i < hi → st'.get? i = st.get? i) →
        spanElemsB st fuel l lo hi = true → spanElemsB st' fuel l lo hi = true) := by
  intro fuel
  induction fuel with
  | zero =>
    have hv : ∀ (st st' : Store) v lo hi,
        (∀ i, lo ≤ i → i < hi → st'.get? i = st.get? i) →
        spanB st 0 v lo hi = true → spanB st' 0 v lo hi = true := by
      intro st st' v lo hi _ h
      cases v with
      | prim p => simpa [spanB] using h
      | ref a => simp [spanB] at h
    refine ⟨hv, ?_, ?_⟩
    · intro st st' l
      induction l with
      | nil => intro lo hi _ h; simpa [spanFieldsB] using h
      | cons kv rest ih =>
        intro lo hi hag h
        obtain ⟨k, v⟩ := kv
        simp only [spanFieldsB, Bool.and_eq_true] at h ⊢
        have hLoEnd : lo ≤ valEnd v lo := (span_le 0).1 st v lo _ h.1
        have hEndHi : valEnd v lo ≤ hi := (span_le 0).2.1 st rest _ hi h.2
        exact ⟨hv st st' v lo _ (fun i h1 h2 => hag i h1 (by omega)) h.1,
          ih _ hi (fun i h1 h2 => hag i (by omega) h2) h.2⟩
    · intro st st' l
      induction l with
      | nil => intro lo hi _ h; simpa [spanElemsB] using h
      | cons v rest ih =>
        intro lo hi hag h
        simp only [spanElemsB, Bool.and_eq_true] at h ⊢
        have hLoEnd : lo ≤ valEnd v lo := (span_le 0).1 st v lo _ h.1
        have hEndHi : valEnd v lo ≤ hi := (span_le 0).2.2 st rest _ hi h.2
        exact ⟨hv st st' v lo _ (fun i h1 h2 => hag i h1 (by omega)) h.1,
          ih _ hi (fun i h1 h2 => hag i (by omega) h2) h.2⟩
  | succ n ihn =>
    have hv : ∀ (st st' : Store) v lo hi,
        (∀ i, lo ≤ i → i < hi → st'.get? i = st.get? i) →
        spanB st (n + 1) v lo hi = true → spanB st' (n + 1) v lo hi = true := by
      intro st st' v lo hi hag h
      cases v with
      | prim p => simpa [spanB] using h
      | ref a =>
        simp only [spanB, Bool.and_eq_true, beq_iff_eq, decide_eq_true_eq] at h ⊢
        obtain ⟨⟨hhi', hloa⟩, hmatch⟩ := h
        subst hhi'
        refine ⟨⟨rfl, hloa⟩, ?_⟩
        rw [hag a hloa (by omega)]
        cases hsn : st.get? a with
        | none => rw [hsn] at hmatch; cases hmatch
        | some node =>
          rw [hsn] at hmatch
          cases node with
          | obj fields =>
            exact ihn.2.1 st st' fields lo a
              (fun i h1 h2 => hag i h1 (by omega)) hmatch
          | arr elems =>
            exact ihn.2.2 st st' elems lo a
              (fun i h1 h2 => hag i h1 (by omega)) hmatch
    refine ⟨hv, ?_, ?_⟩
    · intro st st' l
      induction l with
      | nil => intro lo hi _ h; simpa [spanFieldsB] using h
      | cons kv rest ih =>
        intro lo hi hag h
        obtain ⟨k, v⟩ := kv
        simp only [spanFieldsB, Bool.and_eq_true] at h ⊢
        have hLoEnd : lo ≤ valEnd v lo := (span_le (n + 1)).1 st v lo _ h.1
        have hEndHi : valEnd v lo ≤ hi := (span_le (n + 1)).2.1 st rest _ hi h.2
        exact ⟨hv st st' v lo _ (fun i h1 h2 => hag i h1 (by omega)) h.1,
          ih _ hi (fun i h1 h2 => hag i (by omega) h2) h.2⟩
    · intro st st' l
      induction l with
      | nil => intro lo hi _ h; simpa [spanElemsB] using h
      | cons v rest ih =>
        intro lo hi hag h
        simp only [spanElemsB, Bool.and_eq_true] at h ⊢
        have hLoEnd : lo ≤ valEnd v lo := (span_le (n + 1)).1 st v lo _ h.1
        have hEndHi : valEnd v lo ≤ hi := (span_le (n + 1)).2.2 st rest _ hi h.2
        exact ⟨hv st st' v lo _ (fun i h1 h2 => hag i h1 (by omega)) h.1,
          ih _ hi (fun i h1 h2 => hag i (by omega) h2) h.2⟩

theorem Store.size_le_of_prefix {st st' : Store} (h : st.nodes <+: st'.nodes) :
    st.size ≤ st'.size :=
  h.length_le

theorem Store.get?_of_prefix {st st' : Store} (h : st.nodes <+: st'.nodes)
    {i : Nat} (hi : i < st.size) : st'.get? i = st.get? i := by
  obtain ⟨Δ, hΔ⟩ := h
  simp only [Store.get?, ← hΔ]
  exact List.get?_append hi

theorem Store.get?_append_last (st : Store) (node : JNode) :
    (⟨st.nodes ++ [node]⟩ : Store).get? st.size = some node := by
  simp only [Store.get?, Store.size]
  exact List.get?_concat_length st.nodes node

/-- Packaged frame transfer: two stores agreeing on a region decode
region-internal values identically, provided the region is closed. -/
theorem decode_transfer {st st₂ : Store} {lo hi : Nat}
    (hag : ∀ i, lo ≤ i → i < hi → st₂.get? i = st.get? i)
    (hclosed : ∀ i, lo ≤ i → i < hi → ∀ node, st.get? i = some node →
      NodeIn (fun a => lo ≤ a ∧ a < hi) node) :
    ∀ fuel v, ValIn (fun a => lo ≤ a ∧ a < hi) v →
      decodeVal st₂ fuel v = decodeVal st fuel v :=
  fun fuel v hv =>
    decode_agree (fun a => lo ≤ a ∧ a < hi) fuel st st₂
      (fun i hi' => hag i hi'.1 hi'.2) (fun i hi' => hclosed i hi'.1 hi'.2) v hv

theorem alloc_ok : ∀ (n : Nat),
    (∀ j st, sizeOf j ≤ n → AllocValOK j st) ∧
    (∀ l st, sizeOf l ≤ n → AllocFieldsOK l st) ∧
    (∀ l st, sizeOf l ≤ n → AllocElemsOK l st) := by
  intro n
  induction n using Nat.strong_induction_on with
  | _ n ih =>
  have hprim : ∀ (p : JPrim) (j : Json) (st : Store), primJson p = j →
      allocVal j st = (.prim p, st) → AllocValOK j st := by
    intro p j st hpj halloc
    refine ⟨by rw [halloc], by rw [halloc]; simp [valEnd], 0, ?_, ?_⟩
    · rw [halloc]; simp [spanB]
    · intro fuel _
      rw [halloc]
      cases fuel <;> simp [decodeVal, hpj]
  have hobjarr : ∀ (fields : List (String × Json)) (st : Store),
      sizeOf fields < n → AllocFieldsOK fields st →
      AllocValOK (.obj fields) st := by
    intro fields st _ hfOK
    rcases halloc : allocFields fields st with ⟨fvals, st'⟩
    simp only [AllocFieldsOK, halloc] at hfOK
    obtain ⟨hpre, N₀, hspan, hdec⟩ := hfOK
    have hres : allocVal (.obj fields) st = (.ref st'.size, ⟨st'.nodes ++ [.obj fvals]⟩) := by
      simp [allocVal, halloc]
    have hag : ∀ i, i < st'.size →
        (⟨st'.nodes ++ [JNode.obj fvals]⟩ : Store).get? i = st'.get? i := by
      intro i hi
      exact Store.get?_of_prefix (List.prefix_append st'.nodes _) hi
    have hsize2 : (⟨st'.nodes ++ [JNode.obj fvals]⟩ : Store).size = st'.size + 1 := by
      simp [Store.size]
    have hstle : st.size ≤ st'.size := Store.size_le_of_prefix hpre
    have hspan2 : spanFieldsB (⟨st'.nodes ++ [JNode.obj fvals]⟩ : Store) N₀ fvals
        st.size st'.size = true :=
      (span_agree N₀).2.1 st' _ fvals st.size st'.size
        (fun i _ h2 => hag i h2) hspan
    have hclosed := (span_closed N₀).2.1 st' fvals st.size st'.size hspan
    have hdec2 : ∀ fuel, N₀ ≤ fuel →
        decodeFieldsF (decodeVal (⟨st'.nodes ++ [JNode.obj fvals]⟩ : Store) fuel) fvals =
          some fields := by
      intro fuel hfuel
      have := @decode_transfer st' ⟨st'.nodes ++ [JNode.obj fvals]⟩
        st.size st'.size (fun i _ h2 => hag i h2) hclosed fuel
      rw [decodeFieldsF_congr fvals
        (fun kv hkv => this kv.2 (span_fields_vals hspan kv hkv))]
      exact hdec fuel hfuel
    simp only [AllocValOK, hres]
    refine ⟨?_, ?_, N₀ + 1, ?_, ?_⟩
    · exact hpre.trans (List.prefix_append st'.nodes _)
    · simp [valEnd, hsize2]
    · simp only [hsize2, spanB, Bool.and_eq_true, beq_iff_eq, decide_eq_true_eq]
      refine ⟨⟨by trivial, hstle⟩, ?_⟩
      rw [Store.get?_append_last st' (JNode.obj fvals)]
      exact hspan2
    · intro fuel hfuel
      rcases fuel with _ | f
      · omega
      · simp only [decodeVal]
        rw [Store.get?_append_last st' (JNode.obj fvals)]
        simp only [hdec2 f (by omega), Option.map_some', hsize2]
  have hobjarr' : ∀ (elems : List Json) (st : Store),
      sizeOf elems < n → AllocElemsOK elems st →
      AllocValOK (.arr elems) st := by
    intro elems st _ heOK
    rcases halloc : allocElems elems st with ⟨evals, st'⟩
    simp only [AllocElemsOK, halloc] at heOK
    obtain ⟨hpre, N₀, hspan, hdec⟩ := heOK
    have hres : allocVal (.arr elems) st = (.ref st'.size, ⟨st'.nodes ++ [.arr evals]⟩) := by
      simp [allocVal, halloc]
    have hag : ∀ i, i < st'.size →
        (⟨st'.nodes ++ [JNode.arr evals]⟩ : Store).get? i = st'.get? i := by
      intro i hi
      exact Store.get?_of_prefix (List.prefix_append st'.nodes _) hi
    have hsize2 : (⟨st'.nodes ++ [JNode.arr evals]⟩ : Store).size = st'.size + 1 := by
      simp [Store.size]
    have hstle : st.size ≤ st'.size := Store.size_le_of_prefix hpre
    have hspan2 : spanElemsB (⟨st'.nodes ++ [JNode.arr evals]⟩ : Store) N₀ evals
        st.size st'.size = true :=
      (span_agree N₀).2.2 st' _ evals st.size st'.size
        (fun i _ h2 => hag i h2) hspan
    have hclosed := (span_closed N₀).2.2 st' evals st.size st'.size hspan
    have hdec2 : ∀ fuel, N₀ ≤ fuel →
        decodeElemsF (decodeVal (⟨st'.nodes ++ [JNode.arr evals]⟩ : Store) fuel) evals =
          some elems := by
      intro fuel hfuel
      have := @decode_transfer st' ⟨st'.nodes ++ [JNode.arr evals]⟩
        st.size st'.size (fun i _ h2 => hag i h2) hclosed fuel
      rw [decodeElemsF_congr evals
        (fun v hv => this v (span_elems_vals hspan v hv))]
      exact hdec fuel hfuel
    simp only [AllocValOK, hres]
    refine ⟨?_, ?_, N₀ + 1, ?_, ?_⟩
    · exact hpre.trans (List.prefix_append st'.nodes _)
    · simp [valEnd, hsize2]
    · simp only [hsize2, spanB, Bool.and_eq_true, beq_iff_eq, decide_eq_true_eq]
      refine ⟨⟨by trivial, hstle⟩, ?_⟩
      rw [Store.get?_append_last st' (JNode.arr evals)]
      exact hspan2
    · intro fuel hfuel
      rcases fuel with _ | f
      · omega
      · simp only [decodeVal]
        rw [Store.get?_append_last st' (JNode.arr evals)]
        simp only [hdec2 f (by omega), Option.map_some', hsize2]
  refine ⟨?_, ?_, ?_⟩
  · intro j st hsz
    cases j with
    | null => exact hprim .jnull _ st rfl (by simp [allocVal])
    | bool b => exact hprim (.jbool b) _ st rfl (by simp [allocVal])
    | num m => exact hprim (.jnum m) _ st rfl (by simp [allocVal])
    | str s => exact hprim (.jstr s) _ st rfl (by simp [allocVal])
    | obj fields =>
      have hlt : sizeOf fields < n := by
        have := Json.obj.sizeOf_spec fields
        omega
      exact hobjarr fields st hlt ((ih (sizeOf fields) hlt).2.1 fields st le_rfl)
    | arr elems =>
      have hlt : sizeOf elems < n := by
        have := Json.arr.sizeOf_spec elems
        omega
      exact hobjarr' elems st hlt ((ih (sizeOf elems) hlt).2.2 elems st le_rfl)
  · intro l st hsz
    cases l with
    | nil =>
      refine ⟨by simp [allocFields], 0, ?_, ?_⟩
      · simp [allocFields, spanFieldsB]
      · intro fuel _; simp [allocFields, decodeFieldsF]
    | cons kv rest =>
      obtain ⟨k, v⟩ := kv
      have hspec : sizeOf ((k, v) :: rest) = 1 + sizeOf (k, v) + sizeOf rest :=
        List.cons.sizeOf_spec (k, v) rest
      have hspec2 : sizeOf (k, v) = 1 + sizeOf k + sizeOf v :=
        Prod.mk.sizeOf_spec k v
      have hszv : sizeOf v < n := by omega
      have hszr : sizeOf rest < n := by omega
      have hvOK := (ih (sizeOf v) hszv).1 v st le_rfl
      rcases h1 : allocVal v st with ⟨jv, st₁⟩
      simp only [AllocValOK, h1] at hvOK
      obtain ⟨hpre1, hend, N₁, hspan1, hdec1⟩ := hvOK
      have hrOK := (ih (sizeOf rest) hszr).2.1 rest st₁ le_rfl
      rcases h2 : allocFields rest st₁ with ⟨rvals, st₂⟩
      simp only [AllocFieldsOK, h2] at hrOK
      obtain ⟨hpre2, N₂, hspan2, hdec2⟩ := hrOK
      have hres : allocFields ((k, v) :: rest) st = ((k, jv) :: rvals, st₂) := by
        simp [allocFields, h1, h2]
      have hag : ∀ i, i < st₁.size → st₂.get? i = st₁.get? i :=
        fun i hi => Store.get?_of_prefix hpre2 hi
      have hstle1 : st.size ≤ st₁.size := Store.size_le_of_prefix hpre1
      have hspan1' : spanB st₂ N₁ jv st.size st₁.size = true :=
        (span_agree N₁).1 st₁ st₂ jv st.size st₁.size (fun i _ h2' => hag i h2')
          hspan1
      have hclosed1 := (span_closed N₁).1 st₁ jv st.size st₁.size hspan1
      have hdec1' : ∀ fuel, N₁ ≤ fuel → decodeVal st₂ fuel jv = some v := by
        intro fuel hfuel
        have htr := @decode_transfer st₁ st₂
          st.size st₁.size (fun i _ h2' => hag i h2') hclosed1 fuel
        rw [htr jv (span_bounds hspan1)]
        exact hdec1 fuel hfuel
      simp only [AllocFieldsOK, hres]
      refine ⟨hpre1.trans hpre2, max N₁ N₂, ?_, ?_⟩
      · simp only [spanFieldsB, Bool.and_eq_true]
        constructor
        · rw [hend]
          exact span_mono_le (le_max_left N₁ N₂) jv st.size st₁.size hspan1'
        · rw [hend]
          exact spanFields_mono_le (le_max_right N₁ N₂) rvals st₁.size st₂.size hspan2
      · intro fuel hfuel
        simp only [decodeFieldsF]
        rw [hdec1' fuel (le_trans (le_max_left N₁ N₂) hfuel),
          hdec2 fuel (le_trans (le_max_right N₁ N₂) hfuel)]
  · intro l st hsz
    cases l with
    | nil =>
      refine ⟨by simp [allocElems], 0, ?_, ?_⟩
      · simp [allocElems, spanElemsB]
      · intro fuel _; simp [allocElems, decodeElemsF]
    | cons v rest =>
      have hspec : sizeOf (v :: rest) = 1 + sizeOf v + sizeOf rest :=
        List.cons.sizeOf_spec v rest
      have hszv : sizeOf v < n := by omega
      have hszr : sizeOf rest < n := by omega
      have hvOK := (ih (sizeOf v) hszv).1 v st le_rfl
      rcases h1 : allocVal v st with ⟨jv, st₁⟩
      simp only [AllocValOK, h1] at hvOK
      obtain ⟨hpre1, hend, N₁, hspan1, hdec1⟩ := hvOK
      have hrOK := (ih (sizeOf rest) hszr).2.2 rest st₁ le_rfl
      rcases h2 : allocElems rest st₁ with ⟨rvals, st₂⟩
      simp only [AllocElemsOK, h2] at hrOK
      obtain ⟨hpre2, N₂, hspan2, hdec2⟩ := hrOK
      have hres : allocElems (v :: rest) st = (jv :: rvals, st₂) := by
        simp [allocElems, h1, h2]
      have hag : ∀ i, i < st₁.size → st₂.get? i = st₁.get? i :=
        fun i hi => Store.get?_of_prefix hpre2 hi
      have hspan1' : spanB st₂ N₁ jv st.size st₁.size = true :=
        (span_agree N₁).1 st₁ st₂ jv st.size st₁.size (fun i _ h2' => hag i h2')
          hspan1
      have hclosed1 := (span_closed N₁).1 st₁ jv st.size st₁.size hspan1
      have hdec1' : ∀ fuel, N₁ ≤ fuel → decodeVal st₂ fuel jv = some v := by
        intro fuel hfuel
        have htr := @decode_transfer st₁ st₂
          st.size st₁.size (fun i _ h2' => hag i h2') hclosed1 fuel
        rw [htr jv (span_bounds hspan1)]
        exact hdec1 fuel hfuel
      simp only [AllocElemsOK, hres]
      refine ⟨hpre1.trans hpre2, max N₁ N₂, ?_, ?_⟩
      · simp only [spanElemsB, Bool.and_eq_true]
        constructor
        · rw [hend]
          exact span_mono_le (le_max_left N₁ N₂) jv st.size st₁.size hspan1'
        · rw [hend]
          exact spanElems_mono_le (le_max_right N₁ N₂) rvals st₁.size st₂.size hspan2
      · intro fuel hfuel
        simp only [decodeElemsF]
        rw [hdec1' fuel (le_trans (le_max_left N₁ N₂) hfuel),
          hdec2 fuel (le_trans (le_max_right N₁ N₂) hfuel)]

theorem Store.get?_set_self {st : Store} {a : Nat} (h : a < st.size) (node : JNode) :
    (st.set a node).get? a = some node := by
  simp only [Store.set, Store.get?, List.get?_eq_getElem?]
  rw [List.getElem?_set_self']
  simp only [List.getElem?_eq_getElem h]
  rfl

theorem Store.get?_set_ne {st : Store} {a i : Nat} (h : i ≠ a) (node : JNode) :
    (st.set a node).get? i = st.get? i := by
  simp only [Store.set, Store.get?, List.get?_eq_getElem?]
  rw [List.getElem?_set_ne (by omega)]

theorem Store.set_set (st : Store) (a : Nat) (n₁ n₂ : JNode) :
    (st.set a n₁).set a n₂ = st.set a n₂ := by
  simp [Store.set, List.set_set]

theorem Store.size_set (st : Store) (a : Nat) (node : JNode) :
    (st.set a node).size = st.size := by
  simp [Store.set, Store.size]

theorem Store.lt_size_of_get? {st : Store} {a : Nat} {node : JNode}
    (h : st.get? a = some node) : a < st.size := by
  simp only [Store.get?] at h
  exact List.get?_eq_some.mp h |>.1

/-- Decoded field lists correspond positionally to their stored lists:
a successful property get on the stored list matches one on the decoded
list. -/
theorem decodeFields_get {f : JVal → Option Json} :
    ∀ {l : List (String × JVal)} {jl : List (String × Json)} {key : String},
      decodeFieldsF f l = some jl →
      (jsGetField l key = none → jsGetJsonField jl key = none) ∧
      (∀ w, jsGetField l key = some w →
        ∃ jw, f w = some jw ∧ jsGetJsonField jl key = some jw) := by
  intro l
  induction l with
  | nil =>
    intro jl key h
    simp only [decodeFieldsF] at h
    injection h with h
    subst h
    exact ⟨fun _ => rfl, fun w hw => by simp [jsGetField] at hw⟩
  | cons kv rest ih =>
    intro jl key h
    obtain ⟨k', v⟩ := kv
    simp only [decodeFieldsF] at h
    rcases hf : f v with _ | jv <;> rw [hf] at h
    · cases h
    · rcases hr : decodeFieldsF f rest with _ | jrest <;> rw [hr] at h
      · cases h
      · injection h with h
        subst h
        by_cases hk : k' == key
        · refine ⟨fun hnone => ?_, fun w hw => ?_⟩
          · simp [jsGetField, hk] at hnone
          · simp only [jsGetField, hk, if_true] at hw
            injection hw with hw
            subst hw
            exact ⟨jv, hf, by simp [jsGetJsonField, hk]⟩
        · refine ⟨fun hnone => ?_, fun w hw => ?_⟩
          · simp only [jsGetField, hk, if_false] at hnone
            simp only [jsGetJsonField, hk, if_false]
            exact (ih hr).1 hnone
          · simp only [jsGetField, hk, if_false] at hw
            simp only [jsGetJsonField, hk, if_false]
            exact (ih hr).2 w hw

/-- Setting a key to a primitive commutes with decoding a field list. -/
theorem decodeFieldsF_set_prim {f : JVal → Option Json}
    (hprim : ∀ q, f (.prim q) = some (primJson q)) :
    ∀ {l : List (String × JVal)} {jl : List (String × Json)} (key : String) (p : JPrim),
      decodeFieldsF f l = some jl →
      decodeFieldsF f (jsSetField l key (.prim p)) =
        some (jsSetJsonField jl key (primJson p)) := by
  intro l
  induction l with
  | nil =>
    intro jl key p h
    simp only [decodeFieldsF] at h
    injection h with h
    subst h
    simp [jsSetField, jsSetJsonField, decodeFieldsF, hprim]
  | cons kv rest ih =>
    intro jl key p h
    obtain ⟨k', v⟩ := kv
    simp only [decodeFieldsF] at h
    rcases hf : f v with _ | jv <;> rw [hf] at h
    · cases h
    · rcases hr : decodeFieldsF f rest with _ | jrest <;> rw [hr] at h
      · cases h
      · injection h with h
        subst h
        by_cases hk : k' == key
        · simp only [jsSetField, jsSetJsonField, hk, if_true]
          simp [decodeFieldsF, hf, hr, hprim]
        · simp only [jsSetField, jsSetJsonField, hk, if_false]
          simp [decodeFieldsF, hf, ih key p hr]

/-- Walking a span's field list to the first occurrence of a key whose
value is a reference locates that reference's own sub-span. -/
theorem span_get_field {st : Store} {fuel : Nat} :
    ∀ {l : List (String × JVal)} {lo hi m : Nat} {key : String},
      spanFieldsB st fuel l lo hi = true →
      jsGetField l key = some (.ref m) →
      ∃ flo, lo ≤ flo ∧ m < hi ∧ spanB st fuel (.ref m) flo (m + 1) = true := by
  intro l
  induction l with
  | nil => intro lo hi m key _ hget; simp [jsGetField] at hget
  | cons kv rest ih =>
    intro lo hi m key hspan hget
    obtain ⟨k', v⟩ := kv
    simp only [spanFieldsB, Bool.and_eq_true] at hspan
    simp only [jsGetField] at hget
    by_cases hk : k' == key
    · rw [if_pos hk] at hget
      injection hget with hget
      subst hget
      have hEndHi : valEnd (.ref m) lo ≤ hi := (span_le fuel).2.1 st rest _ hi hspan.2
      simp only [valEnd] at hEndHi
      exact ⟨lo, le_rfl, by omega, hspan.1⟩
    · rw [if_neg hk] at hget
      have hLoEnd : lo ≤ valEnd v lo := (span_le fuel).1 st v lo _ hspan.1
      obtain ⟨flo, hflo, hm, hsp⟩ := ih hspan.2 hget
      exact ⟨flo, by omega, hm, hsp⟩

/-- The surgery lemma: replacing the node of the (first) `metadata`
reference inside a spanned field list changes the decoded list exactly at
that key, provided the updated reference decodes to the given object. -/
theorem fields_surgery {st : Store} {newNode : JNode} :
    ∀ {fuel : Nat} {l : List (String × JVal)} {jl : List (String × Json)}
      {lo hi m : Nat} {jnew : List (String × Json)},
      spanFieldsB st fuel l lo hi = true →
      decodeFieldsF (decodeVal st fuel) l = some jl →
      jsGetField l "metadata" = some (.ref m) →
      decodeVal (st.set m newNode) fuel (.ref m) = some (.obj jnew) →
      decodeFieldsF (decodeVal (st.set m newNode) fuel) l =
        some (jsSetJsonField jl "metadata" (.obj jnew)) := by
  intro fuel l
  induction l with
  | nil => intro jl lo hi m jnew _ _ hget; simp [jsGetField] at hget
  | cons kv rest ih =>
    intro jl lo hi m jnew hspan hdec hget hmdec
    obtain ⟨k', v⟩ := kv
    simp only [spanFieldsB, Bool.and_eq_true] at hspan
    simp only [decodeFieldsF] at hdec
    rcases hf : decodeVal st fuel v with _ | jv <;> rw [hf] at hdec
    · cases hdec
    · rcases hr : decodeFieldsF (decodeVal st fuel) rest with _ | jrest <;>
        rw [hr] at hdec
      · cases hdec
      · injection hdec with hdec
        subst hdec
        simp only [jsGetField] at hget
        by_cases hk : k' == "metadata"
        · rw [if_pos hk] at hget
          injection hget with hget
          subst hget
          -- the tail lies strictly above m and decodes unchanged
          have hrest' : decodeFieldsF (decodeVal (st.set m newNode) fuel) rest =
              some jrest := by
            have hag : ∀ i, m + 1 ≤ i → i < hi →
                (st.set m newNode).get? i = st.get? i := by
              intro i h1 _
              exact Store.get?_set_ne (by omega) newNode
            have hclosed := (span_closed fuel).2.1 st rest (m + 1) hi
              (by simpa [valEnd] using hspan.2)
            have htr := @decode_transfer st (st.set m newNode)
              (m + 1) hi hag hclosed fuel
            rw [decodeFieldsF_congr rest (fun kv hkv => htr kv.2
              (span_fields_vals (by simpa [valEnd] using hspan.2) kv hkv))]
            exact hr
          simp only [decodeFieldsF, jsSetJsonField, hk, if_true]
          rw [hmdec, hrest']
        · rw [if_neg hk] at hget
          have hLoEnd : lo ≤ valEnd v lo := (span_le fuel).1 st v lo _ hspan.1
          obtain ⟨flo, hflo, hmhi, hmsp⟩ := span_get_field hspan.2 hget
          have hmlo : valEnd v lo ≤ flo := hflo
          have hmge : valEnd v lo ≤ m := by
            cases fuel with
            | zero => simp [spanB] at hmsp
            | succ nn =>
              simp only [spanB, Bool.and_eq_true, beq_iff_eq,
                decide_eq_true_eq] at hmsp
              omega
          -- the head lies strictly below m and decodes unchanged
          have hhead' : decodeVal (st.set m newNode) fuel v = some jv := by
            have hag : ∀ i, lo ≤ i → i < valEnd v lo →
                (st.set m newNode).get? i = st.get? i := by
              intro i _ h2
              exact Store.get?_set_ne (by omega) newNode
            have hclosed := (span_closed fuel).1 st v lo (valEnd v lo) hspan.1
            have htr := @decode_transfer st (st.set m newNode)
              lo (valEnd v lo) hag hclosed fuel
            rw [htr v (span_bounds hspan.1)]
            exact hf
          have htail := ih hspan.2 hr hget hmdec
          simp only [decodeFieldsF, jsSetJsonField, hk, if_false]
          rw [hhead', htail]
          simp

theorem storeWFB_closed {st : Store} (h : storeWFB st = true) :
    ∀ i, i < st.size → ∀ node, st.get? i = some node →
      NodeIn (fun a => a < st.size) node := by
  intro i _ node hnode
  have hmem : node ∈ st.nodes := List.get?_mem hnode
  have := List.all_eq_true.mp h node hmem
  cases node with
  | obj fields =>
    intro kv hkv
    have hb := List.all_eq_true.mp this kv hkv
    cases hv : kv.2 with
    | prim p => trivial
    | ref a =>
      rw [hv] at hb
      simpa [valBelowB] using hb
  | arr elems =>
    intro v hv'
    have hb := List.all_eq_true.mp this v hv'
    cases hv : v with
    | prim p => trivial
    | ref a =>
      rw [hv] at hb
      simpa [valBelowB] using hb

theorem primJson_ne_obj (q : JPrim) (fields : List (String × Json)) :
    primJson q ≠ .obj fields := by
  cases q <;> simp [primJson]

/-- Unpacking a reference that decodes to an object. -/
theorem decode_ref_obj {st : Store} {fuel m : Nat} {jl : List (String × Json)}
    (h : decodeVal st (fuel + 1) (.ref m) = some (.obj jl)) :
    ∃ mfields, st.get? m = some (.obj mfields) ∧
      decodeFieldsF (decodeVal st fuel) mfields = some jl := by
  simp only [decodeVal] at h
  cases hm : st.get? m with
  | none => rw [hm] at h; cases h
  | some node =>
    rw [hm] at h
    cases node with
    | obj mfields =>
      simp only [Option.map_eq_some'] at h
      obtain ⟨jf, hjf, hEq⟩ := h
      injection hEq with hEq
      subst hEq
      exact ⟨mfields, rfl, hjf⟩
    | arr elems =>
      simp only [Option.map_eq_some'] at h
      obtain ⟨je, _, hEq⟩ := h
      simp at hEq

/-- `setObjField` only touches the given address. -/
theorem setObjField_get_ne (st : Store) (a : Nat) (k : String) (v : JVal)
    {i : Nat} (h : i ≠ a) : (setObjField st a k v).get? i = st.get? i := by
  unfold setObjField
  cases hn : st.get? a with
  | none => rfl
  | some node =>
    cases node with
    | obj fields => exact Store.get?_set_ne h _
    | arr elems => rfl

/-- `jsSetField` with a primitive only adds primitive values. -/
theorem jsSetField_vals {S : Nat → Prop} :
    ∀ (l : List (String × JVal)) (k : String) (p : JPrim),
      (∀ kv ∈ l, ValIn S kv.2) →
      ∀ kv ∈ jsSetField l k (.prim p), ValIn S kv.2 := by
  intro l
  induction l with
  | nil =>
    intro k p _ kv hkv
    simp only [jsSetField, List.mem_singleton] at hkv
    subst hkv
    trivial
  | cons kv₀ rest ih =>
    intro k p hall kv hkv
    obtain ⟨k', v⟩ := kv₀
    simp only [jsSetField] at hkv
    by_cases hk : k' == k
    · rw [if_pos hk] at hkv
      rcases List.mem_cons.mp hkv with rfl | hmem
      · trivial
      · exact hall kv (by simp [hmem])
    · rw [if_neg hk] at hkv
      rcases List.mem_cons.mp hkv with rfl | hmem
      · exact hall (k', v) (by simp)
      · exact ih k p (fun kv h => hall kv (by simp [h])) kv hmem

theorem decode_prim (st : Store) (fuel : Nat) (p : JPrim) :
    decodeVal st fuel (.prim p) = some (primJson p) := by
  cases fuel <;> rfl

/-- Correctness of one `generateComplianceSpec` call on a well-shaped
template: it succeeds, leaves the registry's heap prefix untouched, returns
a reference into a fresh self-contained region, and the copy decodes to the
template's document with the two provenance fields stamped into its
metadata. -/
theorem genSpec_ok (reg : Registry) (id nowIso : String) (tv : JVal)
    (tfields tmfields : List (String × Json))
    (hlook : lookupTemplate reg.templates id = some tv)
    (hdec : decodeVal reg.store (reg.store.size + 1) tv = some (.obj tfields))
    (hmeta : jsGetJsonField tfields "metadata" = some (.obj tmfields)) :
    ∃ v st₃ N,
      generateComplianceSpec reg id nowIso = .ok (v, st₃) ∧
      reg.store.size ≤ st₃.size ∧
      (∀ i, i < reg.store.size → st₃.get? i = reg.store.get? i) ∧
      ValIn (fun a => reg.store.size ≤ a ∧ a < st₃.size) v ∧
      (∀ i, reg.store.size ≤ i → i < st₃.size → ∀ node, st₃.get? i = some node →
        NodeIn (fun a => reg.store.size ≤ a ∧ a < st₃.size) node) ∧
      (∀ fuel, N ≤ fuel →
        decodeVal st₃ fuel v = some (stampJson (.obj tfields) id nowIso)) := by
  rcases halloc : allocVal (.obj tfields) reg.store with ⟨v, st'⟩
  have hA := (alloc_ok (sizeOf (Json.obj tfields))).1 (.obj tfields) reg.store le_rfl
  simp only [AllocValOK, halloc] at hA
  obtain ⟨hpre, hend, N₀, hspan, hdecode⟩ := hA
  -- the allocated root is a reference
  rcases v with p | r
  · exfalso
    have := hdecode N₀ le_rfl
    rw [decode_prim] at this
    injection this with this
    exact primJson_ne_obj p tfields this
  -- unpack its node
  obtain ⟨fvals, hgetr, hfdec₀⟩ := decode_ref_obj (hdecode (N₀ + 1) (by omega))
  -- locate the metadata reference
  rcases hW : jsGetField fvals "metadata" with _ | w
  · exact absurd ((decodeFields_get hfdec₀).1 hW) (by rw [hmeta]; simp)
  obtain ⟨jw, hjw, htreeW⟩ := (decodeFields_get hfdec₀).2 w hW
  rw [hmeta] at htreeW
  injection htreeW with htreeW
  subst htreeW
  rcases w with q | m
  · exfalso
    rw [decode_prim] at hjw
    injection hjw with hjw
    exact primJson_ne_obj q tmfields hjw
  -- the metadata node
  rcases hNz : N₀ with _ | F
  · rw [hNz] at hjw
    cases hjw
  rw [hNz] at hjw
  obtain ⟨mfields, hgetm, _⟩ := decode_ref_obj hjw
  clear hjw
  -- span bookkeeping at the root
  have hspanR : spanB st' (N₀ + 1) (JVal.ref r) reg.store.size st'.size = true :=
    span_mono_le (by omega) _ _ _ hspan
  have hrfacts : st'.size = r + 1 ∧ reg.store.size ≤ r ∧
      spanFieldsB st' N₀ fvals reg.store.size r = true := by
    simp only [spanB, Bool.and_eq_true, beq_iff_eq, decide_eq_true_eq, hgetr] at hspanR
    exact ⟨hspanR.1.1, hspanR.1.2, hspanR.2⟩
  obtain ⟨hsize', hler, hspanF⟩ := hrfacts
  -- the metadata node's position
  obtain ⟨mlo, hmlo, hmr, hmspan⟩ := span_get_field hspanF hW
  have hmge : reg.store.size ≤ m := by
    rcases hNz' : N₀ with _ | F'
    · rw [hNz'] at hmspan; simp [spanB] at hmspan
    · rw [hNz'] at hmspan
      simp only [spanB, Bool.and_eq_true, beq_iff_eq, decide_eq_true_eq] at hmspan
      omega
  have hmr' : m ≠ r := by omega
  have hmsize : m < st'.size := Store.lt_size_of_get? hgetm
  -- the two stamps compose into one node replacement
  set k₁ : String := "generated_from"
  set k₂ : String := "generated_at"
  set nf₁ : List (String × JVal) := jsSetField mfields k₁ (.prim (.jstr id))
  set nf₂ : List (String × JVal) := jsSetField nf₁ k₂ (.prim (.jstr nowIso))
  have hstamp1 : stampMetadataField st' (.ref r) k₁ (.prim (.jstr id)) =
      some (st'.set m (.obj nf₁)) := by
    simp only [stampMetadataField, setObjField, hgetr, hW, hgetm]
  have hget2r : (st'.set m (.obj nf₁)).get? r = some (.obj fvals) := by
    rw [Store.get?_set_ne (by omega), hgetr]
  have hget2m : (st'.set m (.obj nf₁)).get? m = some (.obj nf₁) :=
    Store.get?_set_self hmsize _
  have hstamp2 : stampMetadataField (st'.set m (.obj nf₁)) (.ref r) k₂
      (.prim (.jstr nowIso)) = some (st'.set m (.obj nf₂)) := by
    simp only [stampMetadataField, setObjField, hget2r, hW, hget2m, Store.set_set]
  have hok : generateComplianceSpec reg id nowIso =
      .ok (.ref r, st'.set m (.obj nf₂)) := by
    simp only [generateComplianceSpec, hlook, hdec, halloc, hstamp1, hstamp2]
  refine ⟨.ref r, st'.set m (.obj nf₂), N₀ + 3, hok, ?_, ?_, ?_, ?_, ?_⟩
  · rw [Store.size_set]
    exact Store.size_le_of_prefix hpre
  · intro i hi
    rw [Store.get?_set_ne (by omega)]
    exact Store.get?_of_prefix hpre hi
  · rw [Store.size_set]
    exact ⟨hler, by omega⟩
  · intro i h₁ h₂ node hnode
    rw [Store.size_set] at h₂ ⊢
    by_cases him : i = m
    · rw [him, Store.get?_set_self hmsize] at hnode
      injection hnode with hnode
      subst hnode
      have hbase : NodeIn (fun a => reg.store.size ≤ a ∧ a < st'.size)
          (JNode.obj mfields) :=
        (span_closed (N₀ + 1)).1 st' (.ref r) reg.store.size st'.size hspanR
          m (by omega) (by omega) _ hgetm
      intro kv hkv
      exact jsSetField_vals nf₁ k₂ (.jstr nowIso)
        (jsSetField_vals mfields k₁ (.jstr id) hbase) kv hkv
    · rw [Store.get?_set_ne him] at hnode
      exact (span_closed (N₀ + 1)).1 st' (.ref r) reg.store.size st'.size hspanR
        i h₁ h₂ node hnode
  · intro fuel hfuel
    obtain ⟨f, rfl⟩ : ∃ f, fuel = f + 1 := ⟨fuel - 1, by omega⟩
    obtain ⟨f', rfl⟩ : ∃ f₂, f = f₂ + 1 := ⟨f - 1, by omega⟩
    -- decode facts at the working fuels
    obtain ⟨fvals', hgetr', hfdec_f⟩ :=
      decode_ref_obj (hdecode (f' + 1 + 1) (by omega))
    rw [hgetr] at hgetr'
    injection hgetr' with hgetr'
    injection hgetr' with hgetr'
    subst hgetr'
    obtain ⟨jw₂, hjw₂, htW₂⟩ := (decodeFields_get hfdec_f).2 _ hW
    rw [hmeta] at htW₂
    injection htW₂ with htW₂
    subst htW₂
    obtain ⟨f'', rfl⟩ : ∃ f₃, f' = f₃ + 1 := ⟨f' - 1, by omega⟩
    obtain ⟨mfields', hgetm', hmdec_f⟩ := decode_ref_obj hjw₂
    rw [hgetm] at hgetm'
    injection hgetm' with hgetm'
    injection hgetm' with hgetm'
    subst hgetm'
    -- metadata children decode unchanged in the stamped store
    have hspanF_f : spanFieldsB st' (f'' + 1 + 1) fvals reg.store.size r = true := by
      have := span_mono_le (show N₀ ≤ f'' + 1 + 1 + 1 by omega) _ _ _ hspan
      simp only [spanB, Bool.and_eq_true, beq_iff_eq, decide_eq_true_eq,
        hgetr] at this
      exact this.2
    obtain ⟨mlo₂, hmlo₂, _, hmspan₂⟩ := span_get_field hspanF_f hW
    have hmfspan : spanFieldsB st' (f'' + 1) mfields mlo₂ m = true := by
      simp only [spanB, Bool.and_eq_true, beq_iff_eq, decide_eq_true_eq,
        hgetm] at hmspan₂
      exact hmspan₂.2
    have hchildren : decodeFieldsF (decodeVal (st'.set m (.obj nf₂)) (f'' + 1))
        mfields = some tmfields := by
      have hag : ∀ i, mlo₂ ≤ i → i < m →
          (st'.set m (.obj nf₂)).get? i = st'.get? i := by
        intro i _ h₂
        exact Store.get?_set_ne (by omega) _
      have hclosed := (span_closed (f'' + 1)).2.1 st' mfields mlo₂ m hmfspan
      have htr := @decode_transfer st' (st'.set m (.obj nf₂))
        mlo₂ m hag hclosed (f'' + 1)
      rw [decodeFieldsF_congr mfields
        (fun kv hkv => htr kv.2 (span_fields_vals hmfspan kv hkv))]
      exact hmdec_f
    -- stamped metadata node decodes to the stamped fields
    have hprimdec : ∀ q, decodeVal (st'.set m (.obj nf₂)) (f'' + 1) (.prim q) =
        some (primJson q) := fun q => decode_prim _ _ q
    have hnewdec : decodeFieldsF (decodeVal (st'.set m (.obj nf₂)) (f'' + 1)) nf₂ =
        some (jsSetJsonField (jsSetJsonField tmfields k₁ (.str id)) k₂
          (.str nowIso)) := by
      have h1 := decodeFieldsF_set_prim hprimdec k₁ (.jstr id) hchildren
      have h2 := decodeFieldsF_set_prim hprimdec k₂ (.jstr nowIso) h1
      exact h2
    have hmdecSet : decodeVal (st'.set m (.obj nf₂)) (f'' + 1 + 1) (.ref m) =
        some (.obj (jsSetJsonField (jsSetJsonField tmfields k₁ (.str id)) k₂
          (.str nowIso))) := by
      simp only [decodeVal]
      rw [Store.get?_set_self hmsize]
      simp only [hnewdec, Option.map_some']
    -- surgery on the whole field list
    have hsurg := @fields_surgery st' (.obj nf₂) _ _ _ _ _ _ _
      hspanF_f hfdec_f hW hmdecSet
    -- assemble the root decode
    simp only [decodeVal]
    rw [Store.get?_set_ne (show r ≠ m by omega), hgetr]
    simp only [hsurg, Option.map_some']
    simp only [stampJson, hmeta]

/-! ## Claim C7 -/

/-- C7: the jurisdiction registry's generateComplianceSpec returns a deep copy
of the stored template with metadata.generated_from and metadata.generated_at
stamped in; two calls yield independent copies, so an in-place field update at
any address of one copy's heap region changes neither the other copy's decoded
document nor the canonical template; and an unknown id yields a not-found
error whose message contains the requested id. -/
theorem C7_registry_copies
    (reg : Registry) (id idMissing nowIso nowIso' : String) (tv : JVal)
    (tfields tmfields : List (String × Json))
    (hwf : storeWFB reg.store = true)
    (htv : valBelowB reg.store.size tv = true)
    (hlook : lookupTemplate reg.templates id = some tv)
    (hdec : decodeVal reg.store (reg.store.size + 1) tv = some (.obj tfields))
    (hmeta : jsGetJsonField tfields "metadata" = some (.obj tmfields))
    (hmiss : lookupTemplate reg.templates idMissing = none) :
    (∃ msg, generateComplianceSpec reg idMissing nowIso = .error msg ∧
      ∃ pre post, msg.data = pre ++ idMissing.data ++ post) ∧
    ∃ v₁ st₁ v₂ st₂ N,
      generateComplianceSpec reg id nowIso = .ok (v₁, st₁) ∧
      generateComplianceSpec ⟨st₁, reg.templates⟩ id nowIso' = .ok (v₂, st₂) ∧
      reg.store.size ≤ st₁.size ∧ st₁.size ≤ st₂.size ∧
      (∀ fuel, N ≤ fuel →
        decodeVal st₂ fuel v₁ = some (stampJson (.obj tfields) id nowIso) ∧
        decodeVal st₂ fuel v₂ = some (stampJson (.obj tfields) id nowIso') ∧
        decodeVal st₂ fuel tv = some (.obj tfields)) ∧
      (∀ a k w, reg.store.size ≤ a → a < st₁.size →
        ∀ fuel, N ≤ fuel →
          decodeVal (setObjField st₂ a k w) fuel v₂ =
            some (stampJson (.obj tfields) id nowIso') ∧
          decodeVal (setObjField st₂ a k w) fuel tv = some (.obj tfields)) ∧
      (∀ a k w, st₁.size ≤ a → a < st₂.size →
        ∀ fuel, N ≤ fuel →
          decodeVal (setObjField st₂ a k w) fuel v₁ =
            some (stampJson (.obj tfields) id nowIso) ∧
          decodeVal (setObjField st₂ a k w) fuel tv = some (.obj tfields)) := by
  constructor
  · refine ⟨"Jurisdiction template '" ++ idMissing ++ "' not found", ?_,
      "Jurisdiction template '".data, "' not found".data, ?_⟩
    · simp only [generateComplianceSpec, hmiss]
    · simp [String.data_append]
  · obtain ⟨v₁, st₁, N₁, hok₁, hsz₁, hpre₁, hin₁, hcl₁, hdec₁⟩ :=
      genSpec_ok reg id nowIso tv tfields tmfields hlook hdec hmeta
    have htvIn : ValIn (fun a => a < reg.store.size) tv := by
      cases tv with
      | prim p => trivial
      | ref a => simpa [valBelowB] using htv
    have hclT : ∀ i, i < reg.store.size → ∀ node, reg.store.get? i = some node →
        NodeIn (fun a => a < reg.store.size) node := storeWFB_closed hwf
    have hclT' : ∀ i, i < reg.store.size → ∀ node,
        reg.store.get? i = some node →
        NodeIn (fun a => a < reg.store.size) node := hclT
    have hdecT₁ : decodeVal st₁ (st₁.size + 1) tv = some (.obj tfields) := by
      have h := decode_agree (fun a => a < reg.store.size) (reg.store.size + 1)
        reg.store st₁ hpre₁ hclT tv htvIn
      rw [hdec] at h
      exact decode_mono_le st₁ (by omega) _ _ h
    obtain ⟨v₂, st₂, N₂, hok₂, hsz₂, hpre₂, hin₂, hcl₂, hdec₂⟩ :=
      genSpec_ok ⟨st₁, reg.templates⟩ id nowIso' tv tfields tmfields hlook
        hdecT₁ hmeta
    have hagT₂ : ∀ i, i < reg.store.size → st₂.get? i = reg.store.get? i := by
      intro i h
      rw [hpre₂ i (lt_of_lt_of_le h hsz₁), hpre₁ i h]
    have hclT₂ : ∀ i, i < reg.store.size → ∀ node, st₂.get? i = some node →
        NodeIn (fun a => a < reg.store.size) node := by
      intro i h node hn
      rw [hagT₂ i h] at hn
      exact hclT i h node hn
    have hdecT₂ : ∀ fuel, reg.store.size + 1 ≤ fuel →
        decodeVal st₂ fuel tv = some (.obj tfields) := by
      intro fuel hf
      have h := decode_agree (fun a => a < reg.store.size) fuel
        reg.store st₂ hagT₂ hclT tv htvIn
      rw [h]
      exact decode_mono_le reg.store hf _ _ hdec
    have hdecC₁ : ∀ fuel, N₁ ≤ fuel →
        decodeVal st₂ fuel v₁ = some (stampJson (.obj tfields) id nowIso) := by
      intro fuel hf
      have h := @decode_transfer st₁ st₂
        reg.store.size st₁.size
        (fun i _ h₂ => hpre₂ i h₂) hcl₁ fuel v₁ hin₁
      rw [h]
      exact hdec₁ fuel hf
    refine ⟨v₁, st₁, v₂, st₂, N₁ + N₂ + reg.store.size + 1,
      hok₁, hok₂, hsz₁, hsz₂, ?_, ?_, ?_⟩
    · intro fuel hf
      exact ⟨hdecC₁ fuel (by omega), hdec₂ fuel (by omega),
        hdecT₂ fuel (by omega)⟩
    · intro a k w ha₁ ha₂ fuel hf
      constructor
      · have h := decode_agree (fun x => st₁.size ≤ x ∧ x < st₂.size) fuel st₂
          (setObjField st₂ a k w)
          (fun i hi => setObjField_get_ne st₂ a k w (show i ≠ a by omega))
          (fun i hi node hn => hcl₂ i hi.1 hi.2 node hn) v₂ hin₂
        rw [h]
        exact hdec₂ fuel (by omega)
      · have h := decode_agree (fun x => x < reg.store.size) fuel st₂
          (setObjField st₂ a k w)
          (fun i hi => setObjField_get_ne st₂ a k w (show i ≠ a by omega))
          hclT₂ tv htvIn
        rw [h]
        exact hdecT₂ fuel (by omega)
    · intro a k w ha₁ ha₂ fuel hf
      constructor
      · have h := decode_agree (fun x => reg.store.size ≤ x ∧ x < st₁.size) fuel
          st₂ (setObjField st₂ a k w)
          (fun i hi => setObjField_get_ne st₂ a k w (show i ≠ a by omega))
          (fun i hi node hn => by
            rw [hpre₂ i hi.2] at hn
            exact hcl₁ i hi.1 hi.2 node hn) v₁ hin₁
        rw [h]
        exact hdecC₁ fuel (by omega)
      · have h := decode_agree (fun x => x < reg.store.size) fuel st₂
          (setObjField st₂ a k w)
          (fun i hi => setObjField_get_ne st₂ a k w (show i ≠ a by omega))
          hclT₂ tv htvIn
        rw [h]
        exact hdecT₂ fuel (by omega)

/-- Concrete instance of the registry copy/stamp theorem: a one-template
registry, a hit on "us-sec" and a miss on "eu-mica". -/
theorem C7_witness :
    (∃ msg, generateComplianceSpec c7Reg "eu-mica" "2024-01-01T00:00:00Z" =
        .error msg ∧
      ∃ pre post, msg.data = pre ++ "eu-mica".data ++ post) ∧
    ∃ v₁ st₁ v₂ st₂ N,
      generateComplianceSpec c7Reg "us-sec" "2024-01-01T00:00:00Z" =
        .ok (v₁, st₁) ∧
      generateComplianceSpec ⟨st₁, c7Reg.templates⟩ "us-sec"
        "2024-02-02T00:00:00Z" = .ok (v₂, st₂) ∧
      c7Reg.store.size ≤ st₁.size ∧ st₁.size ≤ st₂.size ∧
      (∀ fuel, N ≤ fuel →
        decodeVal st₂ fuel v₁ =
          some (stampJson (.obj c7TFields) "us-sec" "2024-01-01T00:00:00Z") ∧
        decodeVal st₂ fuel v₂ =
          some (stampJson (.obj c7TFields) "us-sec" "2024-02-02T00:00:00Z") ∧
        decodeVal st₂ fuel (.ref 1) = some (.obj c7TFields)) ∧
      (∀ a k w, c7Reg.store.size ≤ a → a < st₁.size →
        ∀ fuel, N ≤ fuel →
          decodeVal (setObjField st₂ a k w) fuel v₂ =
            some (stampJson (.obj c7TFields) "us-sec" "2024-02-02T00:00:00Z") ∧
          decodeVal (setObjField st₂ a k w) fuel (.ref 1) =
            some (.obj c7TFields)) ∧
      (∀ a k w, st₁.size ≤ a → a < st₂.size →
        ∀ fuel, N ≤ fuel →
          decodeVal (setObjField st₂ a k w) fuel v₁ =
            some (stampJson (.obj c7TFields) "us-sec" "2024-01-01T00:00:00Z") ∧
          decodeVal (setObjField st₂ a k w) fuel (.ref 1) =
            some (.obj c7TFields)) :=
  C7_registry_copies c7Reg "us-sec" "eu-mica" "2024-01-01T00:00:00Z"
    "2024-02-02T00:00:00Z" (.ref 1) c7TFields c7TMFields (by decide) (by decide)
    rfl rfl rfl rfl

end Shor
